import Mathlib

/-!
Verification of the pbf-bench core: the benchmark result merge pipeline
(`run_benchmark.py`), the rate limiter and retrying model runner
(`model_runner.py`), and the judge response parsing chain (`judge.py`).
Python dicts are embedded as insertion-ordered association lists, floats as
rationals, and wall-clock time as an explicit rational parameter.
-/

set_option maxHeartbeats 1000000
set_option maxRecDepth 4000

namespace PbfBench

/-! ## Association lists: the embedding of Python `dict`

A Python `dict` is insertion-ordered with unique keys.  We embed it as a
`List (String × β)`; lookup returns the first matching key. -/

/-- Lookup in an insertion-ordered association list (Python `d[k]` /
`d.get(k)`); returns the value at the first occurrence of the key. -/
def alookup {β : Type} (k : String) : List (String × β) → Option β
  | [] => none
  | p :: rest => if p.1 = k then some p.2 else alookup k rest

/-- The key list of an association list (Python `d.keys()`). -/
def akeys {β : Type} (l : List (String × β)) : List String :=
  l.map Prod.fst

/-- Python `old.update(new)`: values of keys already present are replaced in
place (keeping their original position); keys not yet present are appended in
the order they occur in `new`. -/
def dictUpdate {β : Type} (old new : List (String × β)) : List (String × β) :=
  old.map (fun p => (p.1, (alookup p.1 new).getD p.2)) ++
    new.filter (fun p => (alookup p.1 old).isNone)

/-- Python `row[k] = v` on a dict: replace in place if present, else append. -/
def dictSet {β : Type} (row : List (String × β)) (k : String) (v : β) :
    List (String × β) :=
  if (alookup k row).isSome then
    row.map (fun p => if p.1 = k then (p.1, v) else p)
  else
    row ++ [(k, v)]

theorem alookup_nil {β : Type} (k : String) : alookup (β := β) k [] = none := rfl

theorem alookup_cons {β : Type} (k : String) (p : String × β) (l : List (String × β)) :
    alookup k (p :: l) = if p.1 = k then some p.2 else alookup k l := rfl

theorem alookup_append {β : Type} (k : String) (a b : List (String × β)) :
    alookup k (a ++ b) = ((alookup k a).orElse fun _ => alookup k b) := by
  induction a with
  | nil => simp [alookup, Option.orElse]
  | cons p rest ih =>
    by_cases h : p.1 = k
    · simp [alookup, h, Option.orElse]
    · simp [alookup, h, ih]

theorem alookup_mem {β : Type} {k : String} {v : β} {l : List (String × β)}
    (h : alookup k l = some v) : (k, v) ∈ l := by
  induction l with
  | nil => simp [alookup] at h
  | cons p rest ih =>
    rw [alookup_cons] at h
    by_cases hk : p.1 = k
    · rw [if_pos hk] at h
      obtain rfl := Option.some.inj h
      subst hk
      exact List.mem_cons_self p rest
    · rw [if_neg hk] at h
      exact List.mem_cons_of_mem _ (ih h)

theorem alookup_isSome_iff {β : Type} {k : String} {l : List (String × β)} :
    (alookup k l).isSome ↔ k ∈ akeys l := by
  induction l with
  | nil => simp [alookup, akeys]
  | cons p rest ih =>
    by_cases h : p.1 = k
    · simp [alookup, akeys, h]
    · simp [alookup, akeys, h, ih, Ne.symm h]

theorem alookup_eq_none_iff {β : Type} {k : String} {l : List (String × β)} :
    alookup k l = none ↔ k ∉ akeys l := by
  rw [← alookup_isSome_iff]
  cases alookup k l <;> simp

theorem alookup_of_mem_nodup {β : Type} {k : String} {v : β} {l : List (String × β)}
    (hnd : (akeys l).Nodup) (hm : (k, v) ∈ l) : alookup k l = some v := by
  induction l with
  | nil => simp at hm
  | cons p rest ih =>
    rw [akeys, List.map_cons, List.nodup_cons] at hnd
    rcases List.mem_cons.mp hm with h | h
    · subst h
      simp [alookup]
    · have hk : p.1 ≠ k := by
        intro he
        apply hnd.1
        rw [he]
        exact List.mem_map_of_mem Prod.fst h
      rw [alookup_cons, if_neg hk]
      exact ih hnd.2 h

/-- Lookup through a value-only rewrite of an association list. -/
theorem alookup_map_val {β : Type} (k : String) (f : String → β → β)
    (l : List (String × β)) :
    alookup k (l.map (fun p => (p.1, f p.1 p.2))) = (alookup k l).map (f k) := by
  induction l with
  | nil => simp [alookup]
  | cons p rest ih =>
    by_cases h : p.1 = k
    · subst h
      simp [alookup, ih]
    · simp [alookup, h, ih]

/-- `alookup_map_val` specialized to the value rewrite done by `dictUpdate`. -/
theorem alookup_map_getD {β : Type} (k : String) (a b : List (String × β)) :
    alookup k (a.map (fun p => (p.1, (alookup p.1 b).getD p.2))) =
      (alookup k a).map (fun v => (alookup k b).getD v) := by
  induction a with
  | nil => simp [alookup]
  | cons p rest ih =>
    by_cases h : p.1 = k
    · subst h
      simp [alookup, ih]
    · simp [alookup, h, ih]

/-- Lookup through a filter whose predicate depends only on the key. -/
theorem alookup_filter_key {β : Type} (k : String) (q : String → Bool)
    (l : List (String × β)) :
    alookup k (l.filter fun p => q p.1) =
      if q k then alookup k l else none := by
  induction l with
  | nil => simp [alookup]
  | cons p rest ih =>
    by_cases h : p.1 = k
    · subst h
      by_cases hq : q p.1
      · simp [alookup, hq, List.filter_cons, ih]
      · simp [alookup, List.filter_cons, hq, ih]
    · by_cases hq : q p.1 <;> simp [alookup, List.filter_cons, hq, h, ih]

/-- The fundamental property of `dictUpdate`: new keys win on conflict, keys
only in the old dict keep their values. -/
theorem alookup_dictUpdate {β : Type} (k : String) (a b : List (String × β)) :
    alookup k (dictUpdate a b) = ((alookup k b).orElse fun _ => alookup k a) := by
  rw [dictUpdate, alookup_append, alookup_map_getD]
  cases ha : alookup k a with
  | some v =>
    cases hb : alookup k b with
    | some w => simp [Option.orElse, hb]
    | none => simp [Option.orElse, hb]
  | none =>
    rw [alookup_filter_key k (fun s => (alookup s a).isNone)]
    simp only [ha, Option.isNone_none, if_pos]
    cases hb : alookup k b <;> simp [Option.orElse]

theorem akeys_append {β : Type} (a b : List (String × β)) :
    akeys (a ++ b) = akeys a ++ akeys b := by
  simp [akeys]

theorem mem_akeys_dictUpdate_left {β : Type} {k : String} {a : List (String × β)}
    (b : List (String × β)) (h : k ∈ akeys a) : k ∈ akeys (dictUpdate a b) := by
  rw [dictUpdate, akeys_append]
  apply List.mem_append_left
  rw [akeys, List.map_map]
  simpa [akeys, Function.comp] using h

theorem mem_akeys_dictUpdate_right {β : Type} {k : String} (a : List (String × β))
    {b : List (String × β)} (h : k ∈ akeys b) : k ∈ akeys (dictUpdate a b) := by
  by_cases ha : k ∈ akeys a
  · exact mem_akeys_dictUpdate_left b ha
  · rw [dictUpdate, akeys_append]
    apply List.mem_append_right
    rw [akeys] at h
    rcases List.mem_map.mp h with ⟨p, hp, hk⟩
    rw [akeys]
    apply List.mem_map.mpr
    refine ⟨p, ?_, hk⟩
    apply List.mem_filter.mpr
    refine ⟨hp, ?_⟩
    have : alookup p.1 a = none := by
      rw [alookup_eq_none_iff]
      rw [hk]
      exact ha
    simp [this]

theorem map_eq_self_of_forall {α : Type} {f : α → α} {l : List α}
    (h : ∀ x ∈ l, f x = x) : l.map f = l := by
  induction l with
  | nil => rfl
  | cons x xs ih =>
    simp only [List.map_cons]
    rw [h x (List.mem_cons_self x xs), ih fun y hy => h y (List.mem_cons_of_mem x hy)]

theorem filter_eq_nil_of_forall {α : Type} {p : α → Bool} {l : List α}
    (h : ∀ x ∈ l, p x = false) : l.filter p = [] := by
  induction l with
  | nil => rfl
  | cons x xs ih =>
    rw [List.filter_cons, h x (List.mem_cons_self x xs)]
    exact ih fun y hy => h y (List.mem_cons_of_mem x hy)

/-- Updating twice with the same dict is the same as updating once. -/
theorem dictUpdate_idem {β : Type} {a b : List (String × β)}
    (hb : (akeys b).Nodup) : dictUpdate (dictUpdate a b) b = dictUpdate a b := by
  have hfilter : (b.filter fun p => (alookup p.1 (dictUpdate a b)).isNone) = [] := by
    apply filter_eq_nil_of_forall
    intro p hp
    have : p.1 ∈ akeys (dictUpdate a b) :=
      mem_akeys_dictUpdate_right a (by simpa [akeys] using List.mem_map_of_mem Prod.fst hp)
    have hs : (alookup p.1 (dictUpdate a b)).isSome := alookup_isSome_iff.mpr this
    cases h : alookup p.1 (dictUpdate a b) with
    | none => rw [h] at hs; simp at hs
    | some v => simp
  have hmap : ((dictUpdate a b).map fun p => (p.1, (alookup p.1 b).getD p.2)) =
      dictUpdate a b := by
    apply map_eq_self_of_forall
    intro p hp
    rcases List.mem_append.mp hp with hleft | hright
    · rcases List.mem_map.mp hleft with ⟨q, _, hq⟩
      cases hb2 : alookup q.1 b with
      | none =>
        have : p = (q.1, q.2) := by rw [← hq]; simp [hb2]
        rw [this]
        simp [hb2]
      | some w =>
        have : p = (q.1, w) := by rw [← hq]; simp [hb2]
        rw [this]
        simp [hb2]
    · have hpb : p ∈ b := (List.mem_filter.mp hright).1
      have : alookup p.1 b = some p.2 := alookup_of_mem_nodup hb (by cases p; exact hpb)
      cases p
      simp_all
  calc dictUpdate (dictUpdate a b) b
      = ((dictUpdate a b).map fun p => (p.1, (alookup p.1 b).getD p.2)) ++
          (b.filter fun p => (alookup p.1 (dictUpdate a b)).isNone) := rfl
    _ = dictUpdate a b := by rw [hfilter, hmap, List.append_nil]

/-- Updating a dict with itself changes nothing. -/
theorem dictUpdate_self {β : Type} {a : List (String × β)}
    (ha : (akeys a).Nodup) : dictUpdate a a = a := by
  have hfilter : (a.filter fun p => (alookup p.1 a).isNone) = [] := by
    apply filter_eq_nil_of_forall
    intro p hp
    have : p.1 ∈ akeys a := by simpa [akeys] using List.mem_map_of_mem Prod.fst hp
    have hs : (alookup p.1 a).isSome := alookup_isSome_iff.mpr this
    cases h : alookup p.1 a with
    | none => rw [h] at hs; simp at hs
    | some v => simp
  have hmap : (a.map fun p => (p.1, (alookup p.1 a).getD p.2)) = a := by
    apply map_eq_self_of_forall
    intro p hp
    have : alookup p.1 a = some p.2 := alookup_of_mem_nodup ha (by cases p; exact hp)
    cases p
    simp_all
  calc dictUpdate a a
      = (a.map fun p => (p.1, (alookup p.1 a).getD p.2)) ++
          (a.filter fun p => (alookup p.1 a).isNone) := rfl
    _ = a := by rw [hfilter, hmap, List.append_nil]

/-! ## Data model of `run_benchmark.py`

A per-comic, per-model score record (the dict built in
`BenchmarkRunner.run_single_comic`), a `ComicResult` (one entry of
`detailed_results`) and the persisted store (`benchmark_details.json`).
Floats are embedded as rationals. -/

/-- One entry of a `ComicResult`'s `scores` map (`run_single_comic`). -/
structure ScoreRecord where
  overall_score : ℚ
  accuracy_score : ℚ
  completeness_score : ℚ
  insight_score : ℚ
  clarity_score : ℚ
  reasoning : String
  timestamp : String
deriving DecidableEq, Repr

/-- One element of `detailed_results`.  The success shape produced by
`run_single_comic` has `error = none`; the failure shape (missing image or an
exception while processing the comic) has `error = some msg` and empty
`explanations` and `scores` maps. -/
structure ComicResult where
  comic_id : String
  comic_title : String
  explanations : List (String × String)
  scores : List (String × ScoreRecord)
  ground_truth : String
  timestamp : String
  error : Option String := none
deriving DecidableEq, Repr

/-- Python `sum(l) / len(l)` on a nonempty list of floats. -/
def pyMean (l : List ℚ) : ℚ := l.sum / l.length

/-- Python `sorted(l)[len(l) // 2]`: the positional median used by
`_calculate_summary_stats` (the floor-middle element of the sorted list, not
the averaged-pair median). -/
def pyMedian (l : List ℚ) : ℚ := (l.insertionSort (· ≤ ·)).getD (l.length / 2) 0

/-- Python `min(l)` on a nonempty list. -/
def pyMin : List ℚ → ℚ
  | [] => 0
  | x :: xs => xs.foldl min x

/-- Python `max(l)` on a nonempty list. -/
def pyMax : List ℚ → ℚ
  | [] => 0
  | x :: xs => xs.foldl max x

/-- The `overall` block of a per-model summary. -/
structure OverallStats where
  mean : ℚ
  median : ℚ
  min : ℚ
  max : ℚ
deriving DecidableEq, Repr

/-- The per-category blocks (`accuracy`, `completeness`, `insight`,
`clarity`) of a per-model summary. -/
structure CategoryStats where
  mean : ℚ
  median : ℚ
deriving DecidableEq, Repr

/-- A per-model summary: either full statistics, or the
`{count: 0, error: "No successful evaluations"}` record produced when a model
has no score entry in any result. -/
inductive ModelSummary where
  | stats (count : Nat) (overall : OverallStats)
      (accuracy completeness insight clarity : CategoryStats)
  | noEval
deriving DecidableEq, Repr

/-- The score values collected for one model across the results, in result
order, one per result whose `scores` map contains the model
(`_calculate_summary_stats`, inner loop). -/
def collectScores (results : List ComicResult) (model : String)
    (f : ScoreRecord → ℚ) : List ℚ :=
  results.filterMap fun r => (alookup model r.scores).map f

/-- `BenchmarkRunner._calculate_summary_stats`. -/
def calculate_summary_stats (results : List ComicResult) (models : List String) :
    List (String × ModelSummary) :=
  models.map fun model =>
    let scores := collectScores results model (fun s => s.overall_score)
    if scores.isEmpty then (model, ModelSummary.noEval)
    else
      let accuracy := collectScores results model (fun s => s.accuracy_score)
      let completeness := collectScores results model (fun s => s.completeness_score)
      let insight := collectScores results model (fun s => s.insight_score)
      let clarity := collectScores results model (fun s => s.clarity_score)
      (model, ModelSummary.stats scores.length
        ⟨pyMean scores, pyMedian scores, pyMin scores, pyMax scores⟩
        ⟨pyMean accuracy, pyMedian accuracy⟩
        ⟨pyMean completeness, pyMedian completeness⟩
        ⟨pyMean insight, pyMedian insight⟩
        ⟨pyMean clarity, pyMedian clarity⟩)

/-- A score record whose five numeric fields all equal `q`. -/
def mkScore (q : ℚ) : ScoreRecord :=
  ⟨q, q, q, q, q, "ok", "t0"⟩

/-- A successful comic result scoring model `m` with `q` on every category. -/
def mkResult (cid m : String) (q : ℚ) : ComicResult :=
  ⟨cid, "", [(m, "expl")], [(m, mkScore q)], "gt", "t0", none⟩

/-- The four-comic scenario of the summary-statistics claim: model `M` scored
4.0, 6.0, 8.0 and 10.0. -/
def summaryScenario : List ComicResult :=
  [mkResult "c1" "M" 4, mkResult "c2" "M" 6, mkResult "c3" "M" 8,
   mkResult "c4" "M" 10]

/-- Claim C8: for a model with per-comic overall scores [4.0, 6.0, 8.0, 10.0]
the summary has mean 7.0 and median 8.0 — the element at zero-based index
`len // 2 = 2` of the sorted list, not the averaged-pair value 7.0 — and a
model with no score entries gets `{count: 0, error: "No successful
evaluations"}` (`ModelSummary.noEval`), with no numeric fields. -/
theorem summary_stats_mean_median_and_empty :
    alookup "M" (calculate_summary_stats summaryScenario ["M", "N"]) =
      some (ModelSummary.stats 4 ⟨7, 8, 4, 10⟩ ⟨7, 8⟩ ⟨7, 8⟩ ⟨7, 8⟩ ⟨7, 8⟩) ∧
    pyMedian [4, 6, 8, 10] = 8 ∧
    ([4, 6, 8, 10] : List ℚ).length / 2 = 2 ∧
    pyMedian [4, 6, 8, 10] ≠ (6 + 8) / 2 ∧
    alookup "N" (calculate_summary_stats summaryScenario ["M", "N"]) =
      some ModelSummary.noEval := by
  have key : calculate_summary_stats summaryScenario ["M", "N"] =
      [("M", ModelSummary.stats 4
        ⟨pyMean [4, 6, 8, 10], pyMedian [4, 6, 8, 10],
         pyMin [4, 6, 8, 10], pyMax [4, 6, 8, 10]⟩
        ⟨pyMean [4, 6, 8, 10], pyMedian [4, 6, 8, 10]⟩
        ⟨pyMean [4, 6, 8, 10], pyMedian [4, 6, 8, 10]⟩
        ⟨pyMean [4, 6, 8, 10], pyMedian [4, 6, 8, 10]⟩
        ⟨pyMean [4, 6, 8, 10], pyMedian [4, 6, 8, 10]⟩),
       ("N", ModelSummary.noEval)] := rfl
  have hmean : pyMean [4, 6, 8, 10] = 7 := by norm_num [pyMean]
  have hmed : pyMedian [4, 6, 8, 10] = 8 := by
    norm_num [pyMedian, List.insertionSort, List.orderedInsert]
  have hmin : pyMin [4, 6, 8, 10] = 4 := by norm_num [pyMin, min_def]
  have hmax : pyMax [4, 6, 8, 10] = 10 := by norm_num [pyMax, max_def]
  refine ⟨?_, hmed, by decide, ?_, ?_⟩
  · rw [key]
    simp [alookup, hmean, hmed, hmin, hmax]
  · rw [hmed]
    norm_num
  · rw [key]
    simp [alookup]

/-! ## The merge pipeline (`BenchmarkRunner._merge_and_save_results`)

The on-disk store is indexed by `comic_id`; old and new detailed results are
folded into that index with per-comic, per-model `dict.update` semantics, the
result is sorted by `comic_id`, and the model set and summary are recomputed
from the merged details. -/

/-- The in-place merge of one result into an existing entry for the same
comic: `entry['explanations'].update(result['explanations'])` and likewise
for `scores` — all other fields of the existing entry are untouched. -/
def updateEntry (old new : ComicResult) : ComicResult :=
  { old with
      explanations := dictUpdate old.explanations new.explanations,
      scores := dictUpdate old.scores new.scores }

/-- One step of indexing results by `comic_id`: insert the result as a new
entry if its comic is unseen, otherwise merge it into the existing entry.
This is the loop body used both for `old_data['detailed_results']` and for
`new_results['detailed_results']` in `_merge_and_save_results`. -/
def insertResult (m : List (String × ComicResult)) (r : ComicResult) :
    List (String × ComicResult) :=
  match alookup r.comic_id m with
  | none => m ++ [(r.comic_id, r)]
  | some _ => m.map fun p =>
      if p.1 = r.comic_id then (p.1, updateEntry p.2 r) else p

/-- `old_results_map` built from the persisted detailed results. -/
def buildResultsMap (results : List ComicResult) : List (String × ComicResult) :=
  results.foldl insertResult []

/-- Lexicographic comparison of code-point sequences: the order Python uses
to compare strings in `sorted(...)`. -/
def codeListLeb : List ℕ → List ℕ → Bool
  | [], _ => true
  | _ :: _, [] => false
  | a :: as, b :: bs =>
    if a < b then true
    else if b < a then false
    else codeListLeb as bs

/-- The code points of a string. -/
def strCodes (s : String) : List ℕ :=
  s.data.map fun c => c.val.toNat

/-- Python string comparison: code-point lexicographic order. -/
def strLeb (a b : String) : Bool :=
  codeListLeb (strCodes a) (strCodes b)

theorem codeListLeb_total (xs ys : List ℕ) :
    codeListLeb xs ys = true ∨ codeListLeb ys xs = true := by
  induction xs generalizing ys with
  | nil => left; rfl
  | cons a as ih =>
    cases ys with
    | nil => right; rfl
    | cons b bs =>
      rcases lt_trichotomy a b with h | h | h
      · left
        simp [codeListLeb, h]
      · subst h
        rcases ih bs with h2 | h2
        · left
          simp [codeListLeb, h2]
        · right
          simp [codeListLeb, h2]
      · right
        simp [codeListLeb, h]

theorem codeListLeb_trans {xs ys zs : List ℕ}
    (h1 : codeListLeb xs ys = true) (h2 : codeListLeb ys zs = true) :
    codeListLeb xs zs = true := by
  induction xs generalizing ys zs with
  | nil => rfl
  | cons a as ih =>
    cases ys with
    | nil => simp [codeListLeb] at h1
    | cons b bs =>
      cases zs with
      | nil => simp [codeListLeb] at h2
      | cons c cs =>
        rcases lt_trichotomy a b with hab | hab | hab
        · rcases lt_trichotomy b c with hbc | hbc | hbc
          · simp [codeListLeb, lt_trans hab hbc]
          · subst hbc
            simp [codeListLeb, hab]
          · rw [codeListLeb, if_neg (lt_asymm hbc), if_pos hbc] at h2
            exact absurd h2 (by simp)
        · subst hab
          rcases lt_trichotomy a c with hac | hac | hac
          · simp [codeListLeb, hac]
          · subst hac
            rw [codeListLeb, if_neg (lt_irrefl a), if_neg (lt_irrefl a)] at h1 h2 ⊢
            exact ih h1 h2
          · rw [codeListLeb, if_neg (lt_asymm hac), if_pos hac] at h2
            exact absurd h2 (by simp)
        · rw [codeListLeb, if_neg (lt_asymm hab), if_pos hab] at h1
          exact absurd h1 (by simp)

/-- The sort relation of `sorted(old_results_map.values(), key=lambda x:
x['comic_id'])`. -/
def resultLe (a b : ComicResult) : Prop :=
  strLeb a.comic_id b.comic_id = true

instance : DecidableRel resultLe := fun _ _ =>
  inferInstanceAs (Decidable (_ = true))

instance : IsTotal ComicResult resultLe :=
  ⟨fun a b => codeListLeb_total (strCodes a.comic_id) (strCodes b.comic_id)⟩

instance : IsTrans ComicResult resultLe :=
  ⟨fun _ _ _ h1 h2 => codeListLeb_trans h1 h2⟩

/-- `sorted(values, key=lambda x: x['comic_id'])`. -/
def sortResults (l : List ComicResult) : List ComicResult :=
  l.insertionSort resultLe

/-- The merged `detailed_results` list. -/
def merge_detailed_results (old new : List ComicResult) : List ComicResult :=
  sortResults ((new.foldl insertResult (buildResultsMap old)).map Prod.snd)

/-- The sort relation of `sorted(...)` on strings. -/
def strLe (a b : String) : Prop := strLeb a b = true

instance : DecidableRel strLe := fun _ _ =>
  inferInstanceAs (Decidable (_ = true))

instance : IsTotal String strLe :=
  ⟨fun a b => codeListLeb_total (strCodes a) (strCodes b)⟩

instance : IsTrans String strLe :=
  ⟨fun _ _ _ h1 h2 => codeListLeb_trans h1 h2⟩

/-- `sorted(s)` for a set of model names. -/
def sortStrings (l : List String) : List String :=
  l.insertionSort strLe

/-- All model names appearing in any explanation map of the given results, in
result order with duplicates. -/
def explKeys (details : List ComicResult) : List String :=
  details.foldr (fun r acc => akeys r.explanations ++ acc) []

/-- `sorted(all_models)` where `all_models` is the set union of the
explanation keys over all merged results. -/
def allModelsOf (details : List ComicResult) : List String :=
  sortStrings (explKeys details).dedup

/-- The persisted store `benchmark_details.json`: metadata (timestamp and
model list), per-model summary, and detailed results.  A fresh run's output
(`benchmark_results` in `run_benchmark`) has the same shape. -/
structure BenchmarkStore where
  metadata_timestamp : String
  metadata_models : List String
  summary : List (String × ModelSummary)
  detailed_results : List ComicResult
deriving DecidableEq, Repr

/-- `BenchmarkRunner._merge_and_save_results`: index the old store by comic,
fold the new run in with per-model upsert semantics, sort by comic id,
recompute the model set as the union of all explanation keys, and recompute
the summary from scratch. -/
def merge_and_save_results (old new : BenchmarkStore) : BenchmarkStore :=
  let details := merge_detailed_results old.detailed_results new.detailed_results
  let allModels := allModelsOf details
  { metadata_timestamp := new.metadata_timestamp,
    metadata_models := allModels,
    summary := calculate_summary_stats details allModels,
    detailed_results := details }

/-- Python `next(r for r in results if r['comic_id'] == cid)`-style access to a
detailed-results list by comic id (first match). -/
def findEntry (cid : String) : List ComicResult → Option ComicResult
  | [] => none
  | r :: rest => if r.comic_id = cid then some r else findEntry cid rest

/-! ### Lemmas about the merge index -/

theorem alookup_map_update_self (r : ComicResult)
    (m : List (String × ComicResult)) :
    alookup r.comic_id
        (m.map fun p => if p.1 = r.comic_id then (p.1, updateEntry p.2 r) else p) =
      (alookup r.comic_id m).map fun e => updateEntry e r := by
  induction m with
  | nil => simp [alookup]
  | cons p rest ih =>
    by_cases h : p.1 = r.comic_id
    · simp [alookup, h, ih]
    · simp [alookup, h, ih]

theorem alookup_map_update_other {k : String} (r : ComicResult) (hk : k ≠ r.comic_id)
    (m : List (String × ComicResult)) :
    alookup k
        (m.map fun p => if p.1 = r.comic_id then (p.1, updateEntry p.2 r) else p) =
      alookup k m := by
  induction m with
  | nil => simp [alookup]
  | cons p rest ih =>
    by_cases h : p.1 = r.comic_id
    · have h2 : p.1 ≠ k := by rw [h]; exact Ne.symm hk
      simp [alookup, h, h2, ih, hk, Ne.symm hk]
    · by_cases h2 : p.1 = k
      · simp [alookup, h, h2, ih, hk, Ne.symm hk]
      · simp [alookup, h, h2, ih]

theorem insertResult_alookup_self (m : List (String × ComicResult))
    (r : ComicResult) :
    alookup r.comic_id (insertResult m r) =
      some (match alookup r.comic_id m with
            | none => r
            | some e => updateEntry e r) := by
  cases h : alookup r.comic_id m with
  | none =>
    rw [insertResult, h, alookup_append, h]
    simp [alookup, Option.orElse]
  | some e =>
    rw [insertResult, h]
    dsimp only
    rw [alookup_map_update_self, h]
    rfl

theorem insertResult_alookup_other {k : String} (m : List (String × ComicResult))
    (r : ComicResult) (hk : k ≠ r.comic_id) :
    alookup k (insertResult m r) = alookup k m := by
  cases h : alookup r.comic_id m with
  | none =>
    rw [insertResult, h, alookup_append]
    cases hm : alookup k m with
    | none => simp [alookup, Ne.symm hk, Option.orElse]
    | some v => simp [Option.orElse]
  | some e =>
    rw [insertResult, h]
    dsimp only
    rw [alookup_map_update_other r hk]

theorem foldl_insertResult_alookup_other {k : String}
    (l : List ComicResult) (m : List (String × ComicResult))
    (hl : ∀ r ∈ l, r.comic_id ≠ k) :
    alookup k (l.foldl insertResult m) = alookup k m := by
  induction l generalizing m with
  | nil => rfl
  | cons r rest ih =>
    rw [List.foldl_cons]
    rw [ih _ fun r' hr' => hl r' (List.mem_cons_of_mem _ hr')]
    exact insertResult_alookup_other m r
      fun he => hl r (List.mem_cons_self r rest) he.symm

/-- The key list and key-to-entry-id invariant of the merge index. -/
def KeyedMap (m : List (String × ComicResult)) : Prop :=
  (akeys m).Nodup ∧ ∀ p ∈ m, p.2.comic_id = p.1

theorem keyedMap_nil : KeyedMap [] := ⟨List.nodup_nil, by simp⟩

theorem insertResult_keyedMap {m : List (String × ComicResult)}
    (hm : KeyedMap m) (r : ComicResult) : KeyedMap (insertResult m r) := by
  obtain ⟨hnd, hid⟩ := hm
  cases h : alookup r.comic_id m with
  | none =>
    rw [insertResult, h]
    constructor
    · rw [akeys_append]
      apply List.Nodup.append hnd (by simp [akeys])
      intro x hx hx2
      have : x = r.comic_id := by simpa [akeys] using hx2
      subst this
      exact (alookup_eq_none_iff.mp h) hx
    · intro p hp
      rcases List.mem_append.mp hp with h1 | h1
      · exact hid p h1
      · simp at h1
        subst h1
        rfl
  | some e =>
    rw [insertResult, h]
    constructor
    · have : akeys (m.map fun p =>
          if p.1 = r.comic_id then (p.1, updateEntry p.2 r) else p) = akeys m := by
        rw [akeys, List.map_map, akeys]
        apply List.map_congr_left
        intro p _
        by_cases hp : p.1 = r.comic_id <;> simp [Function.comp, hp]
      rw [this]
      exact hnd
    · intro p hp
      rcases List.mem_map.mp hp with ⟨q, hq, hpq⟩
      by_cases hc : q.1 = r.comic_id
      · rw [if_pos hc] at hpq
        subst hpq
        simpa [updateEntry] using hid q hq
      · rw [if_neg hc] at hpq
        subst hpq
        exact hid q hq

theorem foldl_insertResult_keyedMap {m : List (String × ComicResult)}
    (hm : KeyedMap m) (l : List ComicResult) :
    KeyedMap (l.foldl insertResult m) := by
  induction l generalizing m with
  | nil => exact hm
  | cons r rest ih => exact ih (insertResult_keyedMap hm r)

theorem buildResultsMap_keyedMap (l : List ComicResult) :
    KeyedMap (buildResultsMap l) :=
  foldl_insertResult_keyedMap keyedMap_nil l

/-- Folding a block of results none of whose ids collide with the
accumulator simply appends their index pairs in order. -/
theorem foldl_insertResult_of_fresh (l : List ComicResult)
    (m : List (String × ComicResult))
    (hfresh : ∀ r ∈ l, alookup r.comic_id m = none)
    (hnd : (l.map fun r => r.comic_id).Nodup) :
    l.foldl insertResult m = m ++ l.map fun r => (r.comic_id, r) := by
  induction l generalizing m with
  | nil => simp
  | cons r rest ih =>
    rw [List.foldl_cons, insertResult,
      hfresh r (List.mem_cons_self r rest)]
    rw [List.map_cons, List.nodup_cons] at hnd
    rw [ih _ ?_ hnd.2]
    · simp
    · intro r' hr'
      rw [alookup_append, hfresh r' (List.mem_cons_of_mem _ hr')]
      have : r'.comic_id ≠ r.comic_id := by
        intro he
        exact hnd.1 (he ▸ List.mem_map_of_mem (fun x => x.comic_id) hr')
      simp [alookup, Option.orElse, this, Ne.symm this]

/-- On a list with distinct comic ids, `buildResultsMap` is plain pairing. -/
theorem buildResultsMap_of_nodup (l : List ComicResult)
    (hnd : (l.map fun r => r.comic_id).Nodup) :
    buildResultsMap l = l.map fun r => (r.comic_id, r) := by
  rw [buildResultsMap, foldl_insertResult_of_fresh l [] (by simp [alookup]) hnd]
  simp

theorem alookup_pairing (cid : String) (l : List ComicResult) :
    alookup cid (l.map fun r => (r.comic_id, r)) = findEntry cid l := by
  induction l with
  | nil => rfl
  | cons r rest ih =>
    by_cases h : r.comic_id = cid <;> simp [alookup, findEntry, h, ih]

theorem findEntry_of_mem_nodup {cid : String} {e : ComicResult}
    {l : List ComicResult} (hnd : (l.map fun r => r.comic_id).Nodup)
    (hm : e ∈ l) (hcid : e.comic_id = cid) : findEntry cid l = some e := by
  induction l with
  | nil => simp at hm
  | cons r rest ih =>
    rw [List.map_cons, List.nodup_cons] at hnd
    rcases List.mem_cons.mp hm with h | h
    · subst h
      simp [findEntry, hcid]
    · have hr : r.comic_id ≠ cid := by
        intro he
        apply hnd.1
        rw [he, ← hcid]
        exact List.mem_map_of_mem (fun x => x.comic_id) h
      rw [findEntry, if_neg hr]
      exact ih hnd.2 h

theorem mem_sortResults {r : ComicResult} {l : List ComicResult} :
    r ∈ sortResults l ↔ r ∈ l :=
  List.mem_insertionSort resultLe

theorem sortResults_perm (l : List ComicResult) : (sortResults l).Perm l :=
  List.perm_insertionSort resultLe l

theorem mem_sortStrings {s : String} {l : List String} :
    s ∈ sortStrings l ↔ s ∈ l :=
  List.mem_insertionSort strLe

/-- The ids of the index's entries are its keys. -/
theorem snd_ids_of_keyedMap {M : List (String × ComicResult)} (h : KeyedMap M) :
    (M.map Prod.snd).map (fun r => r.comic_id) = akeys M := by
  rw [List.map_map, akeys]
  apply List.map_congr_left
  intro p hp
  exact h.2 p hp

theorem merged_ids_nodup {M : List (String × ComicResult)} (h : KeyedMap M) :
    ((sortResults (M.map Prod.snd)).map fun r => r.comic_id).Nodup := by
  have hperm : ((sortResults (M.map Prod.snd)).map fun r => r.comic_id).Perm
      ((M.map Prod.snd).map fun r => r.comic_id) :=
    (sortResults_perm (M.map Prod.snd)).map fun r => r.comic_id
  rw [hperm.nodup_iff, snd_ids_of_keyedMap h]
  exact h.1

/-- The entry a merge leaves at a comic id supplied by the new run:
`updateEntry e r` when the old store had an entry `e` for that comic, and `r`
itself when it did not. -/
theorem merged_findEntry (old new : List ComicResult)
    (hold : (old.map fun r => r.comic_id).Nodup)
    (hnewids : (new.map fun r => r.comic_id).Nodup)
    {r : ComicResult} (hr : r ∈ new) :
    findEntry r.comic_id (merge_detailed_results old new) =
      some (match findEntry r.comic_id old with
            | none => r
            | some e => updateEntry e r) := by
  obtain ⟨l1, l2, rfl⟩ := List.append_of_mem hr
  have hl1 : ∀ r' ∈ l1, r'.comic_id ≠ r.comic_id := by
    intro r' hr' he
    rw [List.map_append, List.map_cons] at hnewids
    have := (List.nodup_append.mp hnewids).2.2
    exact this (List.mem_map_of_mem _ hr') (he ▸ List.mem_cons_self _ _)
  have hl2 : ∀ r' ∈ l2, r'.comic_id ≠ r.comic_id := by
    intro r' hr' he
    rw [List.map_append, List.map_cons] at hnewids
    have h2 := (List.nodup_append.mp hnewids).2.1
    rw [List.nodup_cons] at h2
    exact h2.1 (he ▸ List.mem_map_of_mem (fun x => x.comic_id) hr')
  set M0 := buildResultsMap old with hM0
  have hM0lookup : alookup r.comic_id M0 = findEntry r.comic_id old := by
    rw [hM0, buildResultsMap_of_nodup old hold, alookup_pairing]
  set M1 := (l1 ++ r :: l2).foldl insertResult M0 with hM1
  have hM1lookup : alookup r.comic_id M1 =
      some (match findEntry r.comic_id old with
            | none => r
            | some e => updateEntry e r) := by
    rw [hM1, List.foldl_append, List.foldl_cons]
    rw [foldl_insertResult_alookup_other l2 _ hl2]
    rw [insertResult_alookup_self]
    rw [foldl_insertResult_alookup_other l1 _ hl1, hM0lookup]
  have hkeyed : KeyedMap M1 :=
    foldl_insertResult_keyedMap (buildResultsMap_keyedMap old) _
  set E := (match findEntry r.comic_id old with
            | none => r
            | some e => updateEntry e r) with hE
  have hpair : (r.comic_id, E) ∈ M1 := alookup_mem hM1lookup
  have hid : E.comic_id = r.comic_id := hkeyed.2 (r.comic_id, E) hpair
  have hmem : E ∈ sortResults (M1.map Prod.snd) :=
    mem_sortResults.mpr (List.mem_map_of_mem Prod.snd hpair)
  exact findEntry_of_mem_nodup (merged_ids_nodup hkeyed) hmem hid

/-- Claim C1: merging is a per-comic, per-model upsert.  For every persisted
store and new run (with well-formed unique comic ids), a new result for a
comic already present merges into the existing entry with
`dict.update` semantics on the scores map — on a model-name conflict the new
run's score wins, other models' entries for that comic are unchanged — and a
comic id not present in the old store is inserted as a new entry. -/
theorem merge_per_comic_per_model_upsert (old new : BenchmarkStore)
    (hold : (old.detailed_results.map fun r => r.comic_id).Nodup)
    (hnew : (new.detailed_results.map fun r => r.comic_id).Nodup) :
    ∀ r ∈ new.detailed_results,
      (∀ e, findEntry r.comic_id old.detailed_results = some e →
        findEntry r.comic_id (merge_and_save_results old new).detailed_results =
            some (updateEntry e r) ∧
          (updateEntry e r).scores = dictUpdate e.scores r.scores ∧
          (∀ m, alookup m (updateEntry e r).scores =
            ((alookup m r.scores).orElse fun _ => alookup m e.scores))) ∧
      (findEntry r.comic_id old.detailed_results = none →
        findEntry r.comic_id (merge_and_save_results old new).detailed_results =
          some r) := by
  intro r hr
  have h := merged_findEntry old.detailed_results new.detailed_results hold hnew hr
  constructor
  · intro e he
    rw [he] at h
    refine ⟨h, rfl, fun m => alookup_dictUpdate m e.scores r.scores⟩
  · intro he
    rw [he] at h
    exact h

/-- The old store of the upsert scenario: one comic `"c"` whose scores map is
`{A: 5, B: 7}`. -/
def upsertOldEntry : ComicResult :=
  ⟨"c", "", [("A", "explA"), ("B", "explB")],
   [("A", mkScore 5), ("B", mkScore 7)], "gt", "t_old", none⟩

/-- The new run's result for comic `"c"`: scores `{B: 9, C: 3}`. -/
def upsertNewEntry : ComicResult :=
  ⟨"c", "", [("B", "explB2"), ("C", "explC")],
   [("B", mkScore 9), ("C", mkScore 3)], "gt", "t_new", none⟩

/-- A result of the new run for a comic `"d"` absent from the old store. -/
def upsertFreshEntry : ComicResult :=
  ⟨"d", "", [("B", "explBd")], [("B", mkScore 6)], "gt2", "t_new", none⟩

/-- The persisted store of the upsert scenario. -/
def upsertOldStore : BenchmarkStore :=
  ⟨"t_old", ["A", "B"], [], [upsertOldEntry]⟩

/-- The new run of the upsert scenario. -/
def upsertNewRun : BenchmarkStore :=
  ⟨"t_new", ["B", "C"], [], [upsertNewEntry, upsertFreshEntry]⟩

/-- Witness for C1: in the merged store, comic `"c"`'s scores map is exactly
`{A: 5, B: 9, C: 3}` and comic `"d"` is inserted as a fresh entry. -/
theorem merge_per_comic_per_model_upsert_witness :
    findEntry "c" (merge_and_save_results upsertOldStore upsertNewRun).detailed_results =
        some (updateEntry upsertOldEntry upsertNewEntry) ∧
    (updateEntry upsertOldEntry upsertNewEntry).scores =
        [("A", mkScore 5), ("B", mkScore 9), ("C", mkScore 3)] ∧
    findEntry "d" (merge_and_save_results upsertOldStore upsertNewRun).detailed_results =
        some upsertFreshEntry := by
  have h := merge_per_comic_per_model_upsert upsertOldStore upsertNewRun
    (by decide) (by decide)
  have hc := (h upsertNewEntry (by decide)).1 upsertOldEntry (by decide)
  have hd := (h upsertFreshEntry (by decide)).2 (by decide)
  exact ⟨hc.1, by decide, hd⟩

theorem mem_explKeys {m : String} {details : List ComicResult} :
    m ∈ explKeys details ↔ ∃ r ∈ details, m ∈ akeys r.explanations := by
  induction details with
  | nil => simp [explKeys]
  | cons r rest ih =>
    simp only [explKeys, List.foldr_cons] at ih ⊢
    rw [List.mem_append, ih]
    simp

theorem mem_allModelsOf {m : String} {details : List ComicResult} :
    m ∈ allModelsOf details ↔ ∃ r ∈ details, m ∈ akeys r.explanations := by
  rw [allModelsOf, mem_sortStrings, List.mem_dedup, mem_explKeys]

/-- The merge index has an entry for `cid` whose explanation map mentions
`model`. -/
def HasModelAt (M : List (String × ComicResult)) (cid model : String) : Prop :=
  ∃ e, alookup cid M = some e ∧ model ∈ akeys e.explanations

theorem insertResult_hasModel {M : List (String × ComicResult)} {cid model : String}
    (h : HasModelAt M cid model) (r : ComicResult) :
    HasModelAt (insertResult M r) cid model := by
  obtain ⟨e, he, hm⟩ := h
  by_cases hc : cid = r.comic_id
  · subst hc
    refine ⟨updateEntry e r, ?_, ?_⟩
    · rw [insertResult_alookup_self, he]
    · exact mem_akeys_dictUpdate_left r.explanations hm
  · exact ⟨e, by rw [insertResult_alookup_other M r hc]; exact he, hm⟩

theorem foldl_insertResult_hasModel {cid model : String} (l : List ComicResult)
    {M : List (String × ComicResult)} (h : HasModelAt M cid model) :
    HasModelAt (l.foldl insertResult M) cid model := by
  induction l generalizing M with
  | nil => exact h
  | cons r rest ih => exact ih (insertResult_hasModel h r)

theorem insertResult_hasModel_self (M : List (String × ComicResult))
    (r : ComicResult) {model : String} (hm : model ∈ akeys r.explanations) :
    HasModelAt (insertResult M r) r.comic_id model := by
  cases h : alookup r.comic_id M with
  | none => exact ⟨r, by rw [insertResult_alookup_self, h], hm⟩
  | some e =>
    exact ⟨updateEntry e r, by rw [insertResult_alookup_self, h],
      mem_akeys_dictUpdate_right e.explanations hm⟩

theorem buildResultsMap_hasModel {e : ComicResult} {old : List ComicResult}
    (he : e ∈ old) {model : String} (hm : model ∈ akeys e.explanations) :
    HasModelAt (buildResultsMap old) e.comic_id model := by
  obtain ⟨l1, l2, rfl⟩ := List.append_of_mem he
  rw [buildResultsMap, List.foldl_append, List.foldl_cons]
  exact foldl_insertResult_hasModel l2 (insertResult_hasModel_self _ e hm)

theorem hasModel_mem_details {M : List (String × ComicResult)} {cid model : String}
    (h : HasModelAt M cid model) :
    ∃ r' ∈ sortResults (M.map Prod.snd), model ∈ akeys r'.explanations := by
  obtain ⟨e, he, hm⟩ := h
  exact ⟨e, mem_sortResults.mpr (List.mem_map_of_mem Prod.snd (alookup_mem he)), hm⟩

/-- Claim C5: after a merge the store's recorded model set is exactly the set
of models occurring in some merged comic's explanation map (the union over
all historical and current runs), and no model present in any prior comic
entry is dropped when the new run omits it. -/
theorem merge_model_set_is_union (old new : BenchmarkStore) :
    (∀ m, m ∈ (merge_and_save_results old new).metadata_models ↔
      ∃ r ∈ (merge_and_save_results old new).detailed_results,
        m ∈ akeys r.explanations) ∧
    (∀ e ∈ old.detailed_results, ∀ m ∈ akeys e.explanations,
      m ∈ (merge_and_save_results old new).metadata_models) := by
  constructor
  · intro m
    exact mem_allModelsOf
  · intro e he m hm
    have h1 : HasModelAt (buildResultsMap old.detailed_results) e.comic_id m :=
      buildResultsMap_hasModel he hm
    have h2 : HasModelAt
        (new.detailed_results.foldl insertResult (buildResultsMap old.detailed_results))
        e.comic_id m :=
      foldl_insertResult_hasModel _ h1
    obtain ⟨r', hr', hm'⟩ := hasModel_mem_details h2
    exact mem_allModelsOf.mpr ⟨r', hr', hm'⟩

/-- Witness for C5: in the upsert scenario, the new run omits model `"A"` yet
`"A"` is still recorded in the merged store's model set. -/
theorem merge_model_set_is_union_witness :
    "A" ∈ (merge_and_save_results upsertOldStore upsertNewRun).metadata_models :=
  (merge_model_set_is_union upsertOldStore upsertNewRun).2 upsertOldEntry
    (by decide) "A" (by decide)

theorem updateEntry_absorb_self {r : ComicResult}
    (h1 : (akeys r.explanations).Nodup) (h2 : (akeys r.scores).Nodup) :
    updateEntry r r = r := by
  simp [updateEntry, dictUpdate_self h1, dictUpdate_self h2]

theorem updateEntry_absorb_update (e : ComicResult) {r : ComicResult}
    (h1 : (akeys r.explanations).Nodup) (h2 : (akeys r.scores).Nodup) :
    updateEntry (updateEntry e r) r = updateEntry e r := by
  simp [updateEntry, dictUpdate_idem h1, dictUpdate_idem h2]

/-- After inserting `r` and then further results with other comic ids, the
entry at `r`'s comic id absorbs a repeat of `r`. -/
theorem foldl_insertResult_absorbing {r : ComicResult}
    (hexp : (akeys r.explanations).Nodup) (hsc : (akeys r.scores).Nodup)
    (l2 : List ComicResult) (hl2 : ∀ r' ∈ l2, r'.comic_id ≠ r.comic_id)
    (M : List (String × ComicResult)) :
    ∃ E, alookup r.comic_id (l2.foldl insertResult (insertResult M r)) = some E ∧
      updateEntry E r = E := by
  cases h : alookup r.comic_id M with
  | none =>
    refine ⟨r, ?_, updateEntry_absorb_self hexp hsc⟩
    rw [foldl_insertResult_alookup_other l2 _ hl2, insertResult_alookup_self, h]
  | some e =>
    refine ⟨updateEntry e r, ?_, updateEntry_absorb_update e hexp hsc⟩
    rw [foldl_insertResult_alookup_other l2 _ hl2, insertResult_alookup_self, h]

/-- Folding results each of which is absorbed by its existing entry is a
no-op on the index. -/
theorem foldl_insertResult_absorbed (l : List ComicResult)
    (M : List (String × ComicResult)) (hkeys : (akeys M).Nodup)
    (habs : ∀ r ∈ l, ∃ e, alookup r.comic_id M = some e ∧ updateEntry e r = e) :
    l.foldl insertResult M = M := by
  induction l with
  | nil => rfl
  | cons r rest ih =>
    obtain ⟨e, he, habsorbed⟩ := habs r (List.mem_cons_self r rest)
    have hstep : insertResult M r = M := by
      rw [insertResult, he]
      dsimp only
      apply map_eq_self_of_forall
      intro p hp
      by_cases hpk : p.1 = r.comic_id
      · rw [if_pos hpk]
        have hlp : alookup p.1 M = some p.2 :=
          alookup_of_mem_nodup hkeys (by cases p; exact hp)
        rw [hpk] at hlp
        rw [hlp] at he
        obtain rfl : p.2 = e := Option.some.inj he
        rw [habsorbed]
      · rw [if_neg hpk]
    rw [List.foldl_cons, hstep]
    exact ih fun r' hr' => habs r' (List.mem_cons_of_mem _ hr')

/-- Claim C4: merging the same new-run content a second time changes nothing.
In the embedding all timestamp fields are part of the (unchanged) run
payload, so the second merge is the identity on the whole store. -/
theorem merge_idempotent (old new : BenchmarkStore)
    (hnew : (new.detailed_results.map fun r => r.comic_id).Nodup)
    (hmaps : ∀ r ∈ new.detailed_results,
      (akeys r.explanations).Nodup ∧ (akeys r.scores).Nodup) :
    merge_and_save_results (merge_and_save_results old new) new =
      merge_and_save_results old new := by
  have hkeyed : KeyedMap
      (new.detailed_results.foldl insertResult (buildResultsMap old.detailed_results)) :=
    foldl_insertResult_keyedMap (buildResultsMap_keyedMap old.detailed_results) _
  have hD1ids : ((merge_detailed_results old.detailed_results new.detailed_results).map
      fun r => r.comic_id).Nodup := merged_ids_nodup hkeyed
  have hD1sorted : List.Sorted resultLe
      (merge_detailed_results old.detailed_results new.detailed_results) :=
    List.sorted_insertionSort resultLe _
  have habs : ∀ r ∈ new.detailed_results, ∃ E,
      alookup r.comic_id
        (buildResultsMap (merge_detailed_results old.detailed_results new.detailed_results)) =
        some E ∧ updateEntry E r = E := by
    intro r hr
    obtain ⟨l1, l2, hsplit⟩ := List.append_of_mem hr
    have hl2 : ∀ r' ∈ l2, r'.comic_id ≠ r.comic_id := by
      intro r' hr' he
      rw [hsplit, List.map_append, List.map_cons] at hnew
      have h2 := (List.nodup_append.mp hnew).2.1
      rw [List.nodup_cons] at h2
      exact h2.1 (he ▸ List.mem_map_of_mem (fun x => x.comic_id) hr')
    obtain ⟨E, hE, habsE⟩ := foldl_insertResult_absorbing (hmaps r hr).1 (hmaps r hr).2
      l2 hl2 (l1.foldl insertResult (buildResultsMap old.detailed_results))
    have hM1 : alookup r.comic_id
        (new.detailed_results.foldl insertResult (buildResultsMap old.detailed_results)) =
        some E := by
      rw [hsplit, List.foldl_append, List.foldl_cons]
      exact hE
    have hpair := alookup_mem hM1
    have hid : E.comic_id = r.comic_id := hkeyed.2 _ hpair
    have hmem : E ∈ merge_detailed_results old.detailed_results new.detailed_results :=
      mem_sortResults.mpr (List.mem_map_of_mem Prod.snd hpair)
    refine ⟨E, ?_, habsE⟩
    rw [buildResultsMap_of_nodup _ hD1ids, alookup_pairing]
    exact findEntry_of_mem_nodup hD1ids hmem hid
  have hfold : new.detailed_results.foldl insertResult
      (buildResultsMap (merge_detailed_results old.detailed_results new.detailed_results)) =
      buildResultsMap (merge_detailed_results old.detailed_results new.detailed_results) :=
    foldl_insertResult_absorbed _ _
      (buildResultsMap_keyedMap (merge_detailed_results old.detailed_results new.detailed_results)).1
      habs
  have hvals : (buildResultsMap
      (merge_detailed_results old.detailed_results new.detailed_results)).map Prod.snd =
      merge_detailed_results old.detailed_results new.detailed_results := by
    rw [buildResultsMap_of_nodup _ hD1ids, List.map_map]
    exact map_eq_self_of_forall fun x _ => rfl
  have hD2 : merge_detailed_results
      (merge_detailed_results old.detailed_results new.detailed_results)
      new.detailed_results =
      merge_detailed_results old.detailed_results new.detailed_results := by
    rw [merge_detailed_results, hfold, hvals]
    exact List.Sorted.insertionSort_eq hD1sorted
  calc merge_and_save_results (merge_and_save_results old new) new
      = { metadata_timestamp := new.metadata_timestamp,
          metadata_models := allModelsOf (merge_detailed_results
            (merge_detailed_results old.detailed_results new.detailed_results)
            new.detailed_results),
          summary := calculate_summary_stats
            (merge_detailed_results
              (merge_detailed_results old.detailed_results new.detailed_results)
              new.detailed_results)
            (allModelsOf (merge_detailed_results
              (merge_detailed_results old.detailed_results new.detailed_results)
              new.detailed_results)),
          detailed_results := merge_detailed_results
            (merge_detailed_results old.detailed_results new.detailed_results)
            new.detailed_results } := rfl
    _ = { metadata_timestamp := new.metadata_timestamp,
          metadata_models := allModelsOf
            (merge_detailed_results old.detailed_results new.detailed_results),
          summary := calculate_summary_stats
            (merge_detailed_results old.detailed_results new.detailed_results)
            (allModelsOf (merge_detailed_results old.detailed_results new.detailed_results)),
          detailed_results :=
            merge_detailed_results old.detailed_results new.detailed_results } := by
          rw [hD2]
    _ = merge_and_save_results old new := rfl

/-- Witness for C4: re-merging the upsert scenario's new run is a no-op. -/
theorem merge_idempotent_witness :
    merge_and_save_results (merge_and_save_results upsertOldStore upsertNewRun)
        upsertNewRun =
      merge_and_save_results upsertOldStore upsertNewRun :=
  merge_idempotent upsertOldStore upsertNewRun (by decide) (by decide)

/-! ## Save-mode policy (`BenchmarkRunner._save_results`) -/

/-- The `--save-mode` choices `auto | merge | overwrite`. -/
inductive SaveMode where
  | auto
  | merge
  | overwrite
deriving DecidableEq, Repr

/-- The two branches `_save_results` can take. -/
inductive SaveAction where
  | mergeResults
  | overwriteResults
deriving DecidableEq, Repr

/-- Python strict set inclusion `set(xs) < set(ys)`. -/
def strictSubset (xs ys : List String) : Bool :=
  xs.all (fun x => ys.contains x) && !(ys.all fun y => xs.contains y)

/-- The `should_merge` expression of `_save_results`. -/
def should_merge (mode : SaveMode) (current allModels : List String) : Bool :=
  mode == SaveMode.merge ||
    (mode == SaveMode.auto && strictSubset current allModels)

/-- The branch `_save_results` actually takes: it merges only when
`should_merge` holds and `os.path.exists(self.details_json)` is true. -/
def save_results_action (mode : SaveMode) (current allModels : List String)
    (storeExists : Bool) : SaveAction :=
  if should_merge mode current allModels && storeExists then
    SaveAction.mergeResults
  else
    SaveAction.overwriteResults

/-- Counterexample to claim C6 as stated: with save mode `merge` but no
persisted details file on disk, `_save_results` takes the overwrite branch,
so mode `merge` does not always perform the merge algorithm. -/
theorem save_mode_merge_not_always_merge :
    save_results_action SaveMode.merge ["A"] ["A", "B"] false =
        SaveAction.overwriteResults ∧
    SaveAction.overwriteResults ≠ SaveAction.mergeResults := by
  decide

/-- Claim C6 (amended): provided the persisted details file exists, mode
`merge` always merges and mode `auto` merges exactly when the current run's
model set is a strict subset of the configured benchmark model set; in every
other situation — including mode `overwrite`, and any mode when no persisted
store exists — `_save_results` overwrites. -/
theorem save_mode_policy (mode : SaveMode) (current allModels : List String)
    (storeExists : Bool) :
    (save_results_action mode current allModels storeExists =
        SaveAction.mergeResults ↔
      storeExists = true ∧
        (mode = SaveMode.merge ∨
          (mode = SaveMode.auto ∧ strictSubset current allModels = true))) ∧
    save_results_action SaveMode.overwrite current allModels storeExists =
      SaveAction.overwriteResults := by
  constructor
  · cases mode <;> cases storeExists <;>
      cases h : strictSubset current allModels <;>
        simp [save_results_action, should_merge, h]
  · cases storeExists <;> simp [save_results_action, should_merge]

/-! ## RateLimiter (`model_runner.py`)

`acquire()` runs entirely inside the limiter's lock (the sleep included), so
concurrent callers serialize: each call reads the wall clock when it enters
the critical section, which for back-to-back callers is the completion time
of the previous call.  Wall-clock time is an explicit rational parameter. -/

/-- The limiter's mutable state: available tokens and last refill time. -/
structure RateLimiterState where
  tokens : ℚ
  last_update : ℚ
deriving DecidableEq, Repr

/-- What one `acquire()` call produces: the successor state, the wall-clock
time at which the call returns, and the time slept. -/
structure AcquireResult where
  state : RateLimiterState
  completion : ℚ
  wait : ℚ
deriving DecidableEq, Repr

/-- `RateLimiter.acquire`: refill proportionally to elapsed time, capped at
capacity; if fewer than 1 token is available sleep exactly long enough to
accumulate 1 token (then hold 1 token); finally consume 1 token. -/
def RateLimiter.acquire (rate : ℚ) (s : RateLimiterState) (now : ℚ) :
    AcquireResult :=
  let tokens1 := min rate (s.tokens + (now - s.last_update) * (rate / 60))
  if tokens1 < 1 then
    let sleepTime := (1 - tokens1) * (60 / rate)
    { state := { tokens := 0, last_update := now },
      completion := now + sleepTime,
      wait := sleepTime }
  else
    { state := { tokens := tokens1 - 1, last_update := now },
      completion := now,
      wait := 0 }

/-- `n` back-to-back `acquire()` calls through the lock: call `i+1` enters
the critical section when call `i` completes. -/
def acquireRun (rate : ℚ) : Nat → RateLimiterState → ℚ → List AcquireResult
  | 0, _, _ => []
  | n + 1, s, now =>
    RateLimiter.acquire rate s now ::
      acquireRun rate n (RateLimiter.acquire rate s now).state
        (RateLimiter.acquire rate s now).completion

/-- A limiter as constructed: a full bucket, last refill at construction
time (taken to be 0). -/
def freshLimiter (rate : ℚ) : RateLimiterState := ⟨rate, 0⟩

/-- How many completion times fall inside the closed window `[a, b]`. -/
def countWithin (ts : List ℚ) (a b : ℚ) : Nat :=
  (ts.filter fun t => decide (a ≤ t) && decide (t ≤ b)).length

theorem acquire_nowait (rate t : ℚ) (h1 : 1 ≤ t) (h2 : t ≤ rate) :
    RateLimiter.acquire rate ⟨t, 0⟩ 0 =
      { state := ⟨t - 1, 0⟩, completion := 0, wait := 0 } := by
  simp only [RateLimiter.acquire]
  have htok : min rate (t + (0 - 0) * (rate / 60)) = t := by
    rw [show t + (0 - 0) * (rate / 60) = t by ring]
    exact min_eq_right h2
  rw [htok, if_neg (by linarith : ¬ t < 1)]

theorem acquire_empty (rate : ℚ) (h0 : 0 ≤ rate) :
    RateLimiter.acquire rate ⟨0, 0⟩ 0 =
      { state := ⟨0, 0⟩, completion := 60 / rate, wait := 60 / rate } := by
  simp only [RateLimiter.acquire]
  have htok : min rate ((0 : ℚ) + (0 - 0) * (rate / 60)) = 0 := by
    rw [show (0 : ℚ) + (0 - 0) * (rate / 60) = 0 by ring]
    exact min_eq_right h0
  rw [htok, if_pos (by norm_num : (0 : ℚ) < 1)]
  norm_num

/-- Draining a full bucket: starting from `k` tokens at time 0, `k` calls
complete instantly and the `(k+1)`-th sleeps `60/rate`. -/
theorem acquireRun_drain (rate : ℚ) (hrate : 1 ≤ rate) :
    ∀ k : ℕ, (k : ℚ) ≤ rate →
      ((acquireRun rate (k + 1) ⟨(k : ℚ), 0⟩ 0).map fun r => (r.completion, r.wait)) =
        List.replicate k ((0 : ℚ), (0 : ℚ)) ++ [(60 / rate, 60 / rate)] := by
  intro k
  induction k with
  | zero =>
    intro _
    simp only [Nat.cast_zero, acquireRun,
      acquire_empty rate (le_trans zero_le_one hrate)]
    simp
  | succ k ih =>
    intro hk
    have hcast : ((k + 1 : ℕ) : ℚ) = (k : ℚ) + 1 := by push_cast; ring
    have hk1 : (1 : ℚ) ≤ (k : ℚ) + 1 := by
      have := Nat.cast_nonneg (α := ℚ) k
      linarith
    have hle : (k : ℚ) + 1 ≤ rate := by rw [← hcast]; exact hk
    have hstep : RateLimiter.acquire rate ⟨((k + 1 : ℕ) : ℚ), 0⟩ 0 =
        { state := ⟨(k : ℚ), 0⟩, completion := 0, wait := 0 } := by
      rw [hcast, acquire_nowait rate ((k : ℚ) + 1) hk1 hle]
      norm_num
    conv_lhs => rw [acquireRun]
    rw [hstep]
    rw [List.map_cons]
    rw [ih (by linarith)]
    simp [List.replicate_succ]

/-- Counterexample to claim C2 as stated: capacity R = 2 requests/minute,
three back-to-back `acquire()` calls on a fresh limiter complete at times
0, 0 and 30 — all three inside the rolling 60-second window [0, 60], so more
than R = 2 calls complete within a rolling 60-second window. -/
theorem rate_limiter_window_counterexample :
    ((acquireRun 2 3 (freshLimiter 2) 0).map fun r => r.completion) = [0, 0, 30] ∧
    countWithin [0, 0, 30] 0 60 = 3 ∧
    ¬ (countWithin [0, 0, 30] 0 60 ≤ 2) := by
  have h1 : RateLimiter.acquire 2 ⟨2, 0⟩ 0 = ⟨⟨1, 0⟩, 0, 0⟩ := by
    rw [acquire_nowait 2 2 one_le_two le_rfl]
    norm_num
  have h2 : RateLimiter.acquire 2 ⟨1, 0⟩ 0 = ⟨⟨0, 0⟩, 0, 0⟩ := by
    rw [acquire_nowait 2 1 le_rfl one_le_two]
    norm_num
  have h3 : RateLimiter.acquire 2 ⟨0, 0⟩ 0 = ⟨⟨0, 0⟩, 30, 30⟩ := by
    rw [acquire_empty 2 (by norm_num)]
    norm_num
  refine ⟨?_, by decide, by decide⟩
  simp [acquireRun, freshLimiter, h1, h2, h3]

/-- Claim C2 (amended): for a limiter of capacity R ≥ 1 requests/minute and
R+1 back-to-back `acquire()` calls on a fresh limiter, the first R calls
complete immediately with zero wait and the (R+1)-th observes a strictly
positive wait of 60/R seconds before completing.  All R+1 completions fall
within a single 60-second window (0 ≤ t ≤ 60): the token bucket permits an
initial burst of R, so the per-rolling-window bound of the original claim
does not hold — only the positive-wait half does. -/
theorem rate_limiter_burst_and_wait (R : ℕ) (hR : 1 ≤ R) :
    ((acquireRun (R : ℚ) (R + 1) (freshLimiter (R : ℚ)) 0).map
        fun r => (r.completion, r.wait)) =
      List.replicate R ((0 : ℚ), (0 : ℚ)) ++ [(60 / (R : ℚ), 60 / (R : ℚ))] ∧
    0 < 60 / (R : ℚ) ∧
    60 / (R : ℚ) ≤ 60 := by
  have hpos : (0 : ℚ) < (R : ℚ) := by exact_mod_cast hR
  have h1 : (1 : ℚ) ≤ (R : ℚ) := by exact_mod_cast hR
  refine ⟨acquireRun_drain (R : ℚ) h1 R le_rfl, ?_, ?_⟩
  · positivity
  · rw [div_le_iff₀ hpos]
    nlinarith

/-- Witness for the amended C2 at R = 2. -/
theorem rate_limiter_burst_and_wait_witness :
    ((acquireRun ((2 : ℕ) : ℚ) (2 + 1) (freshLimiter ((2 : ℕ) : ℚ)) 0).map
        fun r => (r.completion, r.wait)) =
      List.replicate 2 ((0 : ℚ), (0 : ℚ)) ++
        [(60 / ((2 : ℕ) : ℚ), 60 / ((2 : ℕ) : ℚ))] ∧
    0 < 60 / ((2 : ℕ) : ℚ) ∧
    60 / ((2 : ℕ) : ℚ) ≤ 60 :=
  rate_limiter_burst_and_wait 2 (by norm_num)

/-! ## ModelRunner (`model_runner.py`)

`run_model` is embedded as a trace-producing function: a provider is a
function from attempt index to the `ModelResponse` its `generate` returns
(providers never raise — they return responses with `error` populated), and
the trace records the outcome plus how often the rate limiter and the
provider were invoked and which backoff sleeps happened. -/

/-- The normalized response every provider returns. -/
structure ModelResponse where
  model_id : String
  text : String
  usage : List (String × Nat)
  latency_ms : ℚ
  timestamp : String
  error : Option String := none
deriving DecidableEq, Repr

/-- The per-model configuration fields `run_model` consults. -/
structure ModelConfig where
  provider : String
  model : String
deriving DecidableEq, Repr

/-- The runner's configuration: the `models` mapping, the providers that
initialized successfully (each of which also got a rate limiter), and the
retry policy from the `retry` config section. -/
structure RunnerConfig where
  models : List (String × ModelConfig)
  providers : List String
  max_attempts : Nat
  initial_delay : ℚ
  backoff_factor : ℚ
deriving DecidableEq, Repr

/-- The retry loop of `run_model` (`for attempt in range(max_attempts)`),
called with the attempt index `i`, the remaining attempts, and the current
delay.  Returns the response returned (`none` models the `UnboundLocalError`
Python would raise if `max_attempts` were 0), the number of `generate`
calls, and the backoff sleeps in order. -/
def runAttempts (gen : Nat → ModelResponse) :
    Nat → Nat → ℚ → ℚ → Option ModelResponse × Nat × List ℚ
  | _, 0, _, _ => (none, 0, [])
  | i, n + 1, delay, backoff =>
    if (gen i).error = none then (some (gen i), 1, [])
    else if n = 0 then (some (gen i), 1, [])
    else
      match runAttempts gen (i + 1) n (delay * backoff) backoff with
      | (res, calls, sleeps) => (res, calls + 1, delay :: sleeps)

/-- How one `run_model` call ends: a raised exception or a returned
response. -/
inductive RunOutcome where
  | raisedValueError (msg : String)
  | raisedUnboundLocal
  | returned (r : ModelResponse)
deriving DecidableEq, Repr

/-- Trace of one `run_model` call. -/
structure RunTrace where
  outcome : RunOutcome
  rate_acquires : Nat
  generate_calls : Nat
  sleeps : List ℚ
deriving DecidableEq, Repr

/-- `ModelRunner.run_model`: an unknown model id raises `ValueError` before
the rate limiter or provider is touched; an uninitialized provider returns
an error response without limiter acquisition or attempts; otherwise the
provider's limiter is acquired once and the retry loop runs. -/
def run_model (cfg : RunnerConfig) (gen : String → Nat → ModelResponse)
    (ts model_id : String) : RunTrace :=
  match alookup model_id cfg.models with
  | none =>
    ⟨RunOutcome.raisedValueError ("Unknown model: " ++ model_id), 0, 0, []⟩
  | some mc =>
    if cfg.providers.contains mc.provider then
      match runAttempts (gen mc.provider) 0 cfg.max_attempts cfg.initial_delay
          cfg.backoff_factor with
      | (some r, calls, sleeps) => ⟨RunOutcome.returned r, 1, calls, sleeps⟩
      | (none, calls, sleeps) => ⟨RunOutcome.raisedUnboundLocal, 1, calls, sleeps⟩
    else
      ⟨RunOutcome.returned
        ⟨model_id, "", [], 0, ts,
         some ("Provider " ++ mc.provider ++ " not initialized")⟩, 0, 0, []⟩

/-- Against an always-erroring provider the retry loop consumes all `n ≥ 1`
attempts, sleeps the geometric backoff sequence, and returns the last
attempt's response. -/
theorem runAttempts_all_error (gen : Nat → ModelResponse)
    (herr : ∀ i, (gen i).error ≠ none) (backoff : ℚ) :
    ∀ n, 1 ≤ n → ∀ i delay,
      runAttempts gen i n delay backoff =
        (some (gen (i + n - 1)), n,
         (List.range (n - 1)).map fun j => delay * backoff ^ j) := by
  intro n
  induction n with
  | zero => intro h; exact absurd h (by norm_num)
  | succ n ih =>
    intro _ i delay
    by_cases hn : n = 0
    · subst hn
      rw [runAttempts, if_neg (herr i), if_pos rfl]
      simp
    · rw [runAttempts, if_neg (herr i), if_neg hn]
      rw [ih (Nat.one_le_iff_ne_zero.mpr hn) (i + 1) (delay * backoff)]
      have hidx : i + 1 + n - 1 = i + (n + 1) - 1 := by omega
      have hcnt : n + 1 = n + 1 := rfl
      obtain ⟨m, rfl⟩ : ∃ m, n = m + 1 := ⟨n - 1, by omega⟩
      have hlist : (List.range (m + 1 + 1 - 1)).map
            (fun j => delay * backoff ^ j) =
          delay :: (List.range (m + 1 - 1)).map
            (fun j => delay * backoff * backoff ^ j) := by
        simp only [Nat.add_sub_cancel]
        rw [List.range_succ_eq_map, List.map_cons, List.map_map]
        rw [pow_zero, mul_one]
        congr 1
        apply List.map_congr_left
        intro j _
        simp only [Function.comp_apply]
        rw [pow_succ]
        ring
      rw [hlist, hidx]

/-- Claim C3: for a configured model whose (initialized) provider always
returns an error-carrying response, `run_model` calls `generate` exactly
`max_attempts` times, sleeping the exponential-backoff sequence
`initial_delay * backoff_factor ^ j` between consecutive attempts, and
returns the last attempt's response with `error` populated — it raises no
exception. -/
theorem run_model_retry_exhaustion (cfg : RunnerConfig)
    (gen : String → Nat → ModelResponse) (ts model_id : String)
    (mc : ModelConfig)
    (hmc : alookup model_id cfg.models = some mc)
    (hprov : cfg.providers.contains mc.provider = true)
    (hatt : 1 ≤ cfg.max_attempts)
    (herr : ∀ i, (gen mc.provider i).error ≠ none) :
    run_model cfg gen ts model_id =
      ⟨RunOutcome.returned (gen mc.provider (cfg.max_attempts - 1)), 1,
       cfg.max_attempts,
       (List.range (cfg.max_attempts - 1)).map
         fun j => cfg.initial_delay * cfg.backoff_factor ^ j⟩ ∧
    (gen mc.provider (cfg.max_attempts - 1)).error ≠ none := by
  refine ⟨?_, herr _⟩
  rw [run_model, hmc]
  dsimp only
  rw [if_pos hprov]
  rw [runAttempts_all_error (gen mc.provider) herr cfg.backoff_factor
    cfg.max_attempts hatt 0 cfg.initial_delay]
  have hidx : 0 + cfg.max_attempts - 1 = cfg.max_attempts - 1 := by omega
  rw [hidx]

/-- The configuration of the retry scenario: one model on one initialized
provider, 3 attempts, initial delay 1s, backoff factor 2. -/
def retryCfg : RunnerConfig :=
  ⟨[("m1", ⟨"prov", "model-v"⟩)], ["prov"], 3, 1, 2⟩

/-- A provider whose `generate` always returns an error response. -/
def alwaysFail (_ : String) (_ : Nat) : ModelResponse :=
  ⟨"m1", "", [], 0, "t", some "boom"⟩

/-- Witness for C3: with 3 attempts, delay 1 and backoff 2, the trace is
exactly 3 generate calls, sleeps [1, 2], one limiter acquisition, and the
returned response carries the error. -/
theorem run_model_retry_exhaustion_witness :
    run_model retryCfg alwaysFail "t" "m1" =
      ⟨RunOutcome.returned (alwaysFail "prov" 2), 1, 3, [1, 2]⟩ ∧
    (alwaysFail "prov" 2).error ≠ none := by
  have h := run_model_retry_exhaustion retryCfg alwaysFail "t" "m1"
    ⟨"prov", "model-v"⟩ (by decide) (by decide) (by decide)
    (fun _ => by simp [alwaysFail])
  refine ⟨?_, h.2⟩
  rw [h.1]
  norm_num [retryCfg, alwaysFail, List.range_succ]

/-- Claim C10: for a model id absent from the configured models mapping,
`run_model` raises `ValueError` having made zero rate-limiter acquisitions
and zero provider calls — unlike per-call provider failures, which are
returned as data in a `ModelResponse`. -/
theorem run_model_unknown_model (cfg : RunnerConfig)
    (gen : String → Nat → ModelResponse) (ts model_id : String)
    (hunk : alookup model_id cfg.models = none) :
    run_model cfg gen ts model_id =
      ⟨RunOutcome.raisedValueError ("Unknown model: " ++ model_id), 0, 0, []⟩ := by
  rw [run_model, hunk]

/-- Witness for C10 at a concrete unknown model id. -/
theorem run_model_unknown_model_witness :
    run_model retryCfg alwaysFail "t" "nope" =
      ⟨RunOutcome.raisedValueError ("Unknown model: " ++ "nope"), 0, 0, []⟩ :=
  run_model_unknown_model retryCfg alwaysFail "t" "nope" (by decide)

/-! ## Tabular projections (`_save_merged_csv` and `_save_csv_summary`)

Rows are Python dicts keyed by fieldname.  The comic columns are the ones
the claims are about; the fixed columns (`model_name`, `model_version`,
`timestamp`) and the summary columns hold strings/numbers whose keys never
collide with a `comic_…` field, so the row embedding is restricted to the
comic-column cells. -/

/-- A comic-column CSV cell: a numeric score, the `''` backfill, the
explicit `'ERROR'` marker, or other inherited text. -/
inductive Cell where
  | empty
  | errorCell
  | scoreCell (q : ℚ)
  | textCell (s : String)
deriving DecidableEq, Repr

/-- The CSV column name of a comic: `f'comic_{comic_id}'`. -/
def comicField (cid : String) : String := "comic_" ++ cid

/-- `if field not in all_fieldnames: all_fieldnames.append(field)`. -/
def appendUnique (acc : List String) (f : String) : List String :=
  if f ∈ acc then acc else acc ++ [f]

/-- The fieldnames of the merged CSV: the fixed columns, a column per comic
id occurring in the merged detailed results (sorted set), then the summary
columns. -/
def merged_csv_fieldnames (details : List ComicResult) : List String :=
  ((sortStrings (details.map fun r => r.comic_id).dedup).map comicField).foldl
      appendUnique ["model_name", "model_version", "timestamp"] ++
    ["average_score", "median_score", "min_score", "max_score", "total_comics"]

/-- One step of the per-comic update loop of `_save_merged_csv` for one
model: write the model's overall score if this result's scores map has the
model, else leave an already-present cell alone and backfill `''` when the
field is absent from the row. -/
def updateRowWithResult (model : String) (row : List (String × Cell))
    (r : ComicResult) : List (String × Cell) :=
  match alookup model r.scores with
  | some sc => dictSet row (comicField r.comic_id) (Cell.scoreCell sc.overall_score)
  | none =>
    if (alookup (comicField r.comic_id) row).isSome then row
    else dictSet row (comicField r.comic_id) Cell.empty

/-- The `Ensure all fields exist` loop, restricted to comic columns. -/
def ensureFields (fields : List String) (row : List (String × Cell)) :
    List (String × Cell) :=
  fields.foldl
    (fun row f => if (alookup f row).isSome then row else dictSet row f Cell.empty)
    row

/-- The comic-column cells of one model's row in `_save_merged_csv`:
start from the model's existing CSV row, run the per-result loop over the
merged detailed results, then backfill every comic column. -/
def merged_csv_comic_row (details : List ComicResult)
    (existingRow : List (String × Cell)) (model : String) :
    List (String × Cell) :=
  ensureFields
    ((sortStrings (details.map fun r => r.comic_id).dedup).map comicField)
    (details.foldl (updateRowWithResult model) existingRow)

/-- `_save_merged_csv` writes one row per model of the merged store's model
list, each starting from that model's existing CSV row (empty when new). -/
def merged_csv_rows (store : BenchmarkStore)
    (existingRows : List (String × List (String × Cell))) :
    List (String × List (String × Cell)) :=
  store.metadata_models.map fun model =>
    (model,
     merged_csv_comic_row store.detailed_results
       ((alookup model existingRows).getD []) model)

/-- The comic cell `_save_csv_summary` (overwrite mode) writes: the model's
overall score when present in the result's scores map, the `'ERROR'` marker
otherwise. -/
def summary_comic_cell (r : ComicResult) (model : String) : Cell :=
  match alookup model r.scores with
  | some sc => Cell.scoreCell sc.overall_score
  | none => Cell.errorCell

theorem string_data_inj {a b : String} (h : a.data = b.data) : a = b := by
  cases a
  cases b
  exact congrArg String.mk h

theorem comicField_inj {a b : String} (h : comicField a = comicField b) :
    a = b := by
  apply string_data_inj
  have hd := congrArg String.data h
  rw [comicField, comicField, String.data_append, String.data_append] at hd
  exact List.append_cancel_left hd

theorem alookup_map_const {β : Type} (k : String) (v : β)
    (l : List (String × β)) :
    alookup k (l.map fun p => if p.1 = k then (p.1, v) else p) =
      (alookup k l).map fun _ => v := by
  induction l with
  | nil => simp [alookup]
  | cons p rest ih =>
    by_cases h : p.1 = k
    · simp [alookup, h, ih]
    · simp [alookup, h, ih]

theorem alookup_map_const_other {β : Type} {k c : String} (hk : k ≠ c) (v : β)
    (l : List (String × β)) :
    alookup k (l.map fun p => if p.1 = c then (p.1, v) else p) = alookup k l := by
  induction l with
  | nil => simp [alookup]
  | cons p rest ih =>
    by_cases h : p.1 = c
    · have h2 : p.1 ≠ k := by rw [h]; exact Ne.symm hk
      simp [alookup, h, h2, ih, hk, Ne.symm hk]
    · by_cases h2 : p.1 = k
      · simp [alookup, h, h2, ih, hk, Ne.symm hk]
      · simp [alookup, h, h2, ih]

theorem alookup_dictSet_self {β : Type} (row : List (String × β)) (k : String)
    (v : β) : alookup k (dictSet row k v) = some v := by
  rw [dictSet]
  by_cases h : (alookup k row).isSome
  · rw [if_pos h, alookup_map_const]
    cases hl : alookup k row with
    | none => rw [hl] at h; simp at h
    | some w => simp
  · rw [if_neg h, alookup_append]
    cases hl : alookup k row with
    | none => simp [alookup, Option.orElse]
    | some w => rw [hl] at h; simp at h

theorem alookup_dictSet_other {β : Type} {k' k : String} (hk : k' ≠ k)
    (row : List (String × β)) (v : β) :
    alookup k' (dictSet row k v) = alookup k' row := by
  rw [dictSet]
  by_cases h : (alookup k row).isSome
  · rw [if_pos h, alookup_map_const_other hk]
  · rw [if_neg h, alookup_append]
    cases hl : alookup k' row with
    | none => simp [alookup, Ne.symm hk, Option.orElse]
    | some w => simp [Option.orElse]

theorem updateRowWithResult_other {model cid : String}
    (row : List (String × Cell)) {r' : ComicResult} (hne : r'.comic_id ≠ cid) :
    alookup (comicField cid) (updateRowWithResult model row r') =
      alookup (comicField cid) row := by
  have hf : comicField cid ≠ comicField r'.comic_id :=
    fun h => hne (comicField_inj h).symm
  rw [updateRowWithResult]
  cases alookup model r'.scores with
  | some sc => exact alookup_dictSet_other hf row _
  | none =>
    dsimp only
    by_cases h : (alookup (comicField r'.comic_id) row).isSome
    · rw [if_pos h]
    · rw [if_neg h]
      exact alookup_dictSet_other hf row _

theorem foldl_updateRow_other {model cid : String} (l : List ComicResult)
    (row : List (String × Cell)) (hl : ∀ r' ∈ l, r'.comic_id ≠ cid) :
    alookup (comicField cid) (l.foldl (updateRowWithResult model) row) =
      alookup (comicField cid) row := by
  induction l generalizing row with
  | nil => rfl
  | cons r' rest ih =>
    rw [List.foldl_cons]
    rw [ih _ fun x hx => hl x (List.mem_cons_of_mem _ hx)]
    exact updateRowWithResult_other row (hl r' (List.mem_cons_self r' rest))

theorem ensureFields_preserves_some (fields : List String)
    {row : List (String × Cell)} {f : String} {c : Cell}
    (h : alookup f row = some c) :
    alookup f (ensureFields fields row) = some c := by
  induction fields generalizing row with
  | nil => exact h
  | cons f' rest ih =>
    rw [ensureFields, List.foldl_cons]
    by_cases hp : (alookup f' row).isSome
    · rw [if_pos hp]
      exact ih h
    · rw [if_neg hp]
      apply ih
      by_cases hf : f' = f
      · subst hf
        rw [h] at hp
        simp at hp
      · rw [alookup_dictSet_other (Ne.symm hf) row Cell.empty]
        exact h

theorem alookup_dictSet_cases {β : Type} {f k : String} {v c : β}
    {row : List (String × β)} (h : alookup f (dictSet row k v) = some c) :
    (f = k ∧ c = v) ∨ alookup f row = some c := by
  by_cases hf : f = k
  · subst hf
    rw [alookup_dictSet_self] at h
    exact Or.inl ⟨rfl, (Option.some.inj h).symm⟩
  · rw [alookup_dictSet_other hf] at h
    exact Or.inr h

theorem updateRow_error_inherited {model : String} {row : List (String × Cell)}
    (r' : ComicResult) {f : String}
    (h : alookup f (updateRowWithResult model row r') = some Cell.errorCell) :
    alookup f row = some Cell.errorCell := by
  rw [updateRowWithResult] at h
  cases hs : alookup model r'.scores with
  | some sc =>
    rw [hs] at h
    rcases alookup_dictSet_cases h with ⟨_, hc⟩ | hrow
    · exact absurd hc (by simp)
    · exact hrow
  | none =>
    rw [hs] at h
    dsimp only at h
    by_cases hp : (alookup (comicField r'.comic_id) row).isSome
    · rw [if_pos hp] at h
      exact h
    · rw [if_neg hp] at h
      rcases alookup_dictSet_cases h with ⟨_, hc⟩ | hrow
      · exact absurd hc (by simp)
      · exact hrow

theorem foldl_updateRow_error_inherited {model : String} (l : List ComicResult)
    {row : List (String × Cell)} {f : String}
    (h : alookup f (l.foldl (updateRowWithResult model) row) = some Cell.errorCell) :
    alookup f row = some Cell.errorCell := by
  induction l generalizing row with
  | nil => exact h
  | cons r' rest ih =>
    rw [List.foldl_cons] at h
    exact updateRow_error_inherited r' (ih h)

theorem ensureFields_error_inherited (fields : List String)
    {row : List (String × Cell)} {f : String}
    (h : alookup f (ensureFields fields row) = some Cell.errorCell) :
    alookup f row = some Cell.errorCell := by
  induction fields generalizing row with
  | nil => exact h
  | cons f' rest ih =>
    rw [ensureFields, List.foldl_cons] at h
    by_cases hp : (alookup f' row).isSome
    · rw [if_pos hp] at h
      exact ih h
    · rw [if_neg hp] at h
      have h2 := ih h
      rcases alookup_dictSet_cases h2 with ⟨_, hc⟩ | hrow
      · exact absurd hc (by simp)
      · exact hrow

theorem mem_foldl_appendUnique {x : String} (l acc : List String) :
    x ∈ l.foldl appendUnique acc ↔ x ∈ acc ∨ x ∈ l := by
  induction l generalizing acc with
  | nil => simp
  | cons f rest ih =>
    rw [List.foldl_cons, ih]
    by_cases hf : f ∈ acc
    · simp only [appendUnique, if_pos hf]
      constructor
      · intro h
        rcases h with h | h
        · exact Or.inl h
        · exact Or.inr (List.mem_cons_of_mem f h)
      · intro h
        rcases h with h | h
        · exact Or.inl h
        · rcases List.mem_cons.mp h with h | h
          · exact Or.inl (h ▸ hf)
          · exact Or.inr h
    · simp only [appendUnique, if_neg hf, List.mem_append]
      constructor
      · intro h
        rcases h with (h | h) | h
        · exact Or.inl h
        · exact Or.inr (List.mem_cons.mpr (Or.inl (by simpa using h)))
        · exact Or.inr (List.mem_cons_of_mem f h)
      · intro h
        rcases h with h | h
        · exact Or.inl (Or.inl h)
        · rcases List.mem_cons.mp h with h | h
          · exact Or.inl (Or.inr (by simpa using h))
          · exact Or.inr h

/-- Claim C9: the merged tabular projection has one column per comic in the
merged detailed results and one row per model in the merged store's model
list; a (model, comic) cell the model never attempted (no score entry for
the comic, no inherited cell) is backfilled empty, never with an error
marker; an `'ERROR'` cell can only be inherited from a previously written
CSV row; and in the overwrite-mode projection, a comic cell is the `'ERROR'`
marker precisely when that comic's entry is a failed attempt (an error
entry, whose scores map is empty), assuming the run-shape invariants of
`run_single_comic` (successful entries score every requested model, failed
entries have empty scores). -/
theorem csv_projection (store : BenchmarkStore)
    (existingRows : List (String × List (String × Cell))) (models : List String)
    (hnd : (store.detailed_results.map fun r => r.comic_id).Nodup) :
    (∀ r ∈ store.detailed_results,
        comicField r.comic_id ∈ merged_csv_fieldnames store.detailed_results) ∧
    ((merged_csv_rows store existingRows).map Prod.fst = store.metadata_models) ∧
    (∀ model row, (model, row) ∈ merged_csv_rows store existingRows →
        row = merged_csv_comic_row store.detailed_results
          ((alookup model existingRows).getD []) model) ∧
    (∀ model, ∀ r0 ∈ store.detailed_results,
        alookup model r0.scores = none →
        alookup (comicField r0.comic_id) ((alookup model existingRows).getD []) =
          none →
        alookup (comicField r0.comic_id)
          (merged_csv_comic_row store.detailed_results
            ((alookup model existingRows).getD []) model) = some Cell.empty) ∧
    (∀ model f,
        alookup f (merged_csv_comic_row store.detailed_results
          ((alookup model existingRows).getD []) model) = some Cell.errorCell →
        alookup f ((alookup model existingRows).getD []) = some Cell.errorCell) ∧
    (∀ r ∈ store.detailed_results, ∀ model ∈ models,
        (r.error = none → (alookup model r.scores).isSome) →
        (r.error ≠ none → r.scores = []) →
        (summary_comic_cell r model = Cell.errorCell ↔ r.error ≠ none)) := by
  refine ⟨?_, ?_, ?_, ?_, ?_, ?_⟩
  · intro r hr
    rw [merged_csv_fieldnames]
    apply List.mem_append_left
    rw [mem_foldl_appendUnique]
    right
    exact List.mem_map_of_mem comicField
      (mem_sortStrings.mpr (List.mem_dedup.mpr
        (List.mem_map_of_mem (fun x => x.comic_id) hr)))
  · rw [merged_csv_rows, List.map_map]
    exact map_eq_self_of_forall fun x _ => rfl
  · intro model row h
    rcases List.mem_map.mp h with ⟨m, _, heq⟩
    obtain ⟨rfl, rfl⟩ := Prod.mk.injEq .. ▸ heq
    rfl
  · intro model r0 hr0 hnoscore hnoexist
    obtain ⟨l1, l2, hsplit⟩ := List.append_of_mem hr0
    have hl1 : ∀ r' ∈ l1, r'.comic_id ≠ r0.comic_id := by
      intro r' hr' he
      rw [hsplit, List.map_append, List.map_cons] at hnd
      exact (List.nodup_append.mp hnd).2.2
        (List.mem_map_of_mem _ hr') (he ▸ List.mem_cons_self _ _)
    have hl2 : ∀ r' ∈ l2, r'.comic_id ≠ r0.comic_id := by
      intro r' hr' he
      rw [hsplit, List.map_append, List.map_cons] at hnd
      have h2 := (List.nodup_append.mp hnd).2.1
      rw [List.nodup_cons] at h2
      exact h2.1 (he ▸ List.mem_map_of_mem (fun x => x.comic_id) hr')
    rw [merged_csv_comic_row]
    apply ensureFields_preserves_some
    rw [hsplit, List.foldl_append, List.foldl_cons]
    rw [foldl_updateRow_other l2 _ hl2]
    have hrowfield : alookup (comicField r0.comic_id)
        (l1.foldl (updateRowWithResult model) ((alookup model existingRows).getD [])) =
        none := by
      rw [foldl_updateRow_other l1 _ hl1]
      exact hnoexist
    rw [updateRowWithResult, hnoscore]
    dsimp only
    rw [if_neg (by rw [hrowfield]; simp)]
    exact alookup_dictSet_self _ _ _
  · intro model f h
    rw [merged_csv_comic_row] at h
    exact foldl_updateRow_error_inherited _ (ensureFields_error_inherited _ h)
  · intro r _ model _ h1 h2
    by_cases he : r.error = none
    · have hs := h1 he
      rw [summary_comic_cell]
      cases hl : alookup model r.scores with
      | none => rw [hl] at hs; simp at hs
      | some sc => simp [he]
    · have hsc := h2 he
      rw [summary_comic_cell, hsc]
      simp [alookup, he]

/-- The `"c"` entry of the CSV scenario: scored only by model `A`. -/
def csvEntryC : ComicResult :=
  ⟨"c", "", [("A", "eA")], [("A", mkScore 5)], "gt", "t", none⟩

/-- The `"d"` entry of the CSV scenario: scored only by model `B`. -/
def csvEntryD : ComicResult :=
  ⟨"d", "", [("B", "eB")], [("B", mkScore 6)], "gt", "t", none⟩

/-- A failed comic entry (missing image): empty maps, error set. -/
def csvErrEntry : ComicResult :=
  ⟨"e", "", [], [], "", "t", some "Image not found"⟩

/-- The store of the CSV scenario. -/
def csvStore : BenchmarkStore :=
  ⟨"t", ["A", "B"], [], [csvEntryC, csvEntryD, csvErrEntry]⟩

/-- A pre-existing CSV row set carrying an inherited error cell. -/
def csvRowsW : List (String × List (String × Cell)) :=
  [("A", [(comicField "x", Cell.errorCell)])]

/-- Witness for C9: model `B` never attempted comic `"c"` and has no
inherited cell, so its cell is backfilled empty; the fieldnames contain the
column of comic `"c"`; and the overwrite-mode cell of the failed entry is
the error marker exactly because that entry failed. -/
theorem csv_projection_witness :
    comicField "c" ∈ merged_csv_fieldnames csvStore.detailed_results ∧
    alookup (comicField "c")
      (merged_csv_comic_row csvStore.detailed_results
        ((alookup "B" csvRowsW).getD []) "B") = some Cell.empty ∧
    (summary_comic_cell csvErrEntry "A" = Cell.errorCell ↔
      csvErrEntry.error ≠ none) := by
  have h := csv_projection csvStore csvRowsW ["A", "B"] (by decide)
  refine ⟨h.1 csvEntryC (by decide), ?_, ?_⟩
  · exact h.2.2.2.1 "B" csvEntryC (by decide) (by decide) (by decide)
  · exact h.2.2.2.2.2 csvErrEntry (by decide) "A" (by decide)
      (by decide) (by decide)

/-! ## Kernel-computable rationals

`Rat` arithmetic normalizes through `Nat.gcd`, which is well-founded and
does not reduce in the kernel, so concrete runs of the judge-response parser
could not be checked by `decide`/`rfl`.  `ratOf n d` constructs the rational
`n / d` directly in normal form using a fueled (hence structural) Euclid,
and is proved equal to ordinary division. -/

/-- Euclid's algorithm with explicit fuel; the first argument strictly
decreases, so fuel `x + 1` always suffices. -/
def gcdFuel : Nat → Nat → Nat → Nat
  | 0, _, y => y
  | _ + 1, 0, y => y
  | fuel + 1, x + 1, y => gcdFuel fuel (y % (x + 1)) (x + 1)

/-- Kernel-reducible gcd. -/
def myGcd (x y : Nat) : Nat := gcdFuel (x + 1) x y

theorem gcdFuel_eq (fuel : Nat) : ∀ x y, x < fuel → gcdFuel fuel x y = Nat.gcd x y := by
  induction fuel with
  | zero => intro x y h; exact absurd h (Nat.not_lt_zero x)
  | succ fuel ih =>
    intro x y hx
    cases x with
    | zero => simp [gcdFuel]
    | succ x0 =>
      rw [gcdFuel, ih (y % (x0 + 1)) (x0 + 1)
        (lt_of_lt_of_le (Nat.mod_lt y (Nat.succ_pos x0)) (Nat.lt_succ_iff.mp hx)),
        Nat.gcd_succ]

theorem myGcd_eq (x y : Nat) : myGcd x y = Nat.gcd x y :=
  gcdFuel_eq (x + 1) x y (Nat.lt_succ_self x)

/-- The rational `n / d`, built directly in reduced form.  Evaluates by
kernel reduction on concrete inputs. -/
def ratOf (n : Int) (d : Nat) : ℚ :=
  if h : d / myGcd n.natAbs d ≠ 0 ∧
      myGcd (n / (myGcd n.natAbs d : Int)).natAbs (d / myGcd n.natAbs d) = 1 then
    Rat.mk' (n / (myGcd n.natAbs d : Int)) (d / myGcd n.natAbs d) h.1
      (by rw [Nat.Coprime, ← myGcd_eq]; exact h.2)
  else 0

theorem ratOf_eq_div (n : Int) (d : Nat) : ratOf n d = (n : ℚ) / (d : ℚ) := by
  rw [ratOf]
  by_cases hd : d = 0
  · subst hd
    rw [dif_neg (by simp [Nat.zero_div])]
    simp
  · set g := myGcd n.natAbs d with hgdef
    have hgcd : g = Nat.gcd n.natAbs d := myGcd_eq _ _
    have hgpos : 0 < g := by
      rw [hgcd]
      exact Nat.gcd_pos_of_pos_right _ (Nat.pos_of_ne_zero hd)
    have hgdvd_d : g ∣ d := by
      rw [hgcd]
      exact Nat.gcd_dvd_right _ _
    have hgdvd_n : (g : Int) ∣ n := by
      rw [hgcd]
      exact Int.natCast_dvd.mpr (Nat.gcd_dvd_left _ _)
    have hgz : (g : Int) ≠ 0 := by exact_mod_cast hgpos.ne'
    have hddnz : d / g ≠ 0 := Nat.div_ne_zero_iff_of_dvd hgdvd_d |>.mpr ⟨hd, hgpos.ne'⟩
    have habs : (n / (g : Int)).natAbs = n.natAbs / g := by
      obtain ⟨n1, hn1⟩ := hgdvd_n
      rw [hn1, Int.mul_ediv_cancel_left n1 hgz, Int.natAbs_mul, Int.natAbs_ofNat,
        Nat.mul_div_cancel_left _ hgpos]
    have hcop : Nat.Coprime (n / (g : Int)).natAbs (d / g) := by
      rw [habs]
      have h2 := Nat.coprime_div_gcd_div_gcd
        (m := n.natAbs) (n := d) (by rw [← hgcd]; exact hgpos)
      rw [← hgcd] at h2
      exact h2
    rw [dif_pos ⟨hddnz, by rw [← hgdef, myGcd_eq]; exact hcop⟩]
    have hmk := Rat.num_div_den (Rat.mk' (n / (g : Int)) (d / g) hddnz hcop)
    simp only at hmk
    rw [← hmk]
    obtain ⟨n1, hn1⟩ := hgdvd_n
    obtain ⟨d1, hd1⟩ := hgdvd_d
    rw [show n / (g : Int) = n1 from by rw [hn1]; exact Int.mul_ediv_cancel_left n1 hgz,
      show d / g = d1 from by rw [hd1]; exact Nat.mul_div_cancel_left d1 hgpos,
      hn1, hd1]
    push_cast
    rw [mul_div_mul_left _ _ (show ((g : ℚ)) ≠ 0 by exact_mod_cast hgpos.ne')]

/-! ## Judge response parsing (`judge.py`)

`ComicExplanationJudge._parse_judge_response` is a staged fallback: extract a
fenced ```json block (else the substring between the first `{` and the last
`}`), run `json.loads` on it, validate/coerce the six required fields; on a
JSON decode error fall back to per-field regex extraction over the whole
response; on anything else return `None`, which
`_judge_with_text_parsing` converts into a zero-valued error score.
Strings are processed as `List Char`; `json.loads` is embedded as a
recursive-descent JSON parser.  Numbers use decimal semantics via
`decToRat`; non-finite floats (`inf`/`nan`) and digit-group underscores are
outside the embedding. -/

/-- `10^e` scaling of an integer mantissa: the value of the decimal
`n × 10^e`. -/
def decToRat (n : Int) (e : Int) : ℚ :=
  if 0 ≤ e then ratOf (n * 10 ^ e.toNat) 1 else ratOf n (10 ^ (-e).toNat)

theorem decToRat_eq (n : Int) (e : Int) : decToRat n e = (n : ℚ) * (10 : ℚ) ^ e := by
  rw [decToRat]
  by_cases he : 0 ≤ e
  · rw [if_pos he, ratOf_eq_div]
    push_cast
    rw [div_one, ← zpow_natCast, Int.toNat_of_nonneg he]
  · rw [if_neg he, ratOf_eq_div]
    push_cast
    rw [← zpow_natCast, Int.toNat_of_nonneg (by omega : (0 : ℤ) ≤ -e), zpow_neg,
      div_eq_mul_inv, inv_inv]

/-- The opening brace character. -/
def lbrace : Char := Char.ofNat 123

/-- The closing brace character. -/
def rbrace : Char := Char.ofNat 125

/-- The whitespace `json.loads` skips. -/
def isJsonWs (c : Char) : Bool :=
  c = ' ' || c = '\t' || c = '\n' || c = '\r'

/-- Python regex `\s` (also used by `str.strip` in `float`). -/
def isPyWs (c : Char) : Bool :=
  isJsonWs c || c = Char.ofNat 11 || c = Char.ofNat 12

def skipWsBy (p : Char → Bool) : List Char → List Char
  | [] => []
  | c :: cs => if p c then skipWsBy p cs else c :: cs

def skipJsonWs : List Char → List Char := skipWsBy isJsonWs

def skipPyWs : List Char → List Char := skipWsBy isPyWs

def stripTrailingPyWs (cs : List Char) : List Char :=
  (skipPyWs cs.reverse).reverse

def digitVal (c : Char) : Nat := c.toNat - 48

def digitsToNat (ds : List Char) : Nat :=
  ds.foldl (fun acc c => acc * 10 + digitVal c) 0

/-- Split off a maximal run of decimal digits. -/
def spanDigits : List Char → List Char × List Char
  | [] => ([], [])
  | c :: cs =>
    if c.isDigit then
      match spanDigits cs with
      | (ds, rest) => (c :: ds, rest)
    else ([], c :: cs)

def readExpDigits (neg : Bool) (cs : List Char) : Option (Int × List Char) :=
  match spanDigits cs with
  | ([], _) => none
  | (ds, rest) =>
    some (if neg then -(digitsToNat ds : Int) else (digitsToNat ds : Int), rest)

def parseExpAfter : List Char → Option (Int × List Char)
  | '+' :: rest => readExpDigits false rest
  | '-' :: rest => readExpDigits true rest
  | cs => readExpDigits false cs

/-- An optional exponent part `e`/`E` sign digits; yields exponent 0 when
absent (shared by JSON numbers and Python `float(...)`). -/
def parseExpInt : List Char → Option (Int × List Char)
  | 'e' :: rest => parseExpAfter rest
  | 'E' :: rest => parseExpAfter rest
  | cs => some (0, cs)

/-- An unsigned JSON number: integer part without leading zeros, optional
nonempty fraction, optional exponent. -/
def parseUnsigned (cs : List Char) : Option (ℚ × List Char) :=
  match spanDigits cs with
  | ([], _) => none
  | (ds, cs2) =>
    if 1 < ds.length ∧ ds.headD '0' = '0' then none
    else
      match cs2 with
      | '.' :: cs3 =>
        match spanDigits cs3 with
        | ([], _) => none
        | (fs, cs4) =>
          match parseExpInt cs4 with
          | none => none
          | some (e, cs5) =>
            some (decToRat (digitsToNat (ds ++ fs)) (e - fs.length), cs5)
      | _ =>
        match parseExpInt cs2 with
        | none => none
        | some (e, cs5) => some (decToRat (digitsToNat ds) e, cs5)

/-- A JSON number (optional leading minus). -/
def parseNumber : List Char → Option (ℚ × List Char)
  | '-' :: rest => (parseUnsigned rest).map fun p => (-p.1, p.2)
  | cs => parseUnsigned cs

/-- The numeric body accepted by Python `float(...)` (decimal forms). -/
def pyFloatCore (cs : List Char) : Option ℚ :=
  match spanDigits cs with
  | (ds, cs2) =>
    match cs2 with
    | '.' :: cs3 =>
      match spanDigits cs3 with
      | (fs, cs4) =>
        if ds = [] ∧ fs = [] then none
        else
          match parseExpInt cs4 with
          | none => none
          | some (e, cs5) =>
            if cs5 = [] then some (decToRat (digitsToNat (ds ++ fs)) (e - fs.length))
            else none
    | _ =>
      if ds = [] then none
      else
        match parseExpInt cs2 with
        | none => none
        | some (e, cs5) => if cs5 = [] then some (decToRat (digitsToNat ds) e) else none

/-- Python `float(s)`: strip whitespace, optional sign, decimal body. -/
def pyFloatOfChars (cs0 : List Char) : Option ℚ :=
  match stripTrailingPyWs (skipPyWs cs0) with
  | '+' :: rest => pyFloatCore rest
  | '-' :: rest => (pyFloatCore rest).map Neg.neg
  | cs => pyFloatCore cs

def hexVal (c : Char) : Option Nat :=
  if '0' ≤ c ∧ c ≤ '9' then some (c.toNat - 48)
  else if 'a' ≤ c ∧ c ≤ 'f' then some (c.toNat - 87)
  else if 'A' ≤ c ∧ c ≤ 'F' then some (c.toNat - 55)
  else none

/-- The body of a JSON string after the opening quote: returns the decoded
characters and the input following the closing quote.  Unescaped control
characters are rejected, as `json.loads` does. -/
def parseJsonStringAux : List Char → Option (List Char × List Char)
  | [] => none
  | '\\' :: 'u' :: h1 :: h2 :: h3 :: h4 :: rest =>
    match hexVal h1, hexVal h2, hexVal h3, hexVal h4 with
    | some a, some b, some c, some d =>
      (parseJsonStringAux rest).map fun p =>
        (Char.ofNat (((a * 16 + b) * 16 + c) * 16 + d) :: p.1, p.2)
    | _, _, _, _ => none
  | '\\' :: e :: rest =>
    let esc : Option Char :=
      if e = '"' then some '"'
      else if e = '\\' then some '\\'
      else if e = '/' then some '/'
      else if e = 'b' then some (Char.ofNat 8)
      else if e = 'f' then some (Char.ofNat 12)
      else if e = 'n' then some '\n'
      else if e = 'r' then some '\r'
      else if e = 't' then some '\t'
      else none
    match esc with
    | some ch => (parseJsonStringAux rest).map fun p => (ch :: p.1, p.2)
    | none => none
  | c :: rest =>
    if c = '"' then some ([], rest)
    else if c.toNat < 32 then none
    else (parseJsonStringAux rest).map fun p => (c :: p.1, p.2)

/-- JSON values as `json.loads` produces them (objects keep key order; on
duplicate keys the later value wins at lookup time). -/
inductive Json where
  | null
  | bool (b : Bool)
  | num (q : ℚ)
  | str (s : String)
  | arr (elems : List Json)
  | obj (fields : List (String × Json))

/-- The recursive-descent core of `json.loads`, on fuel.  `mode 0` parses a
value, `mode 1` the members of an object after `{` (producing `Json.obj`),
`mode 2` the items of a nonempty array (producing `Json.arr`). -/
def parseJ : Nat → Nat → List Char → Option (Json × List Char)
  | 0, _, _ => none
  | fuel + 1, mode, cs =>
    if mode = 1 then
      match skipJsonWs cs with
      | '"' :: rest =>
        match parseJsonStringAux rest with
        | none => none
        | some (keyChars, rest2) =>
          match skipJsonWs rest2 with
          | ':' :: rest3 =>
            match parseJ fuel 0 rest3 with
            | none => none
            | some (v, rest4) =>
              match skipJsonWs rest4 with
              | ',' :: rest5 =>
                match parseJ fuel 1 rest5 with
                | some (Json.obj kvs, rest6) =>
                  some (Json.obj ((String.mk keyChars, v) :: kvs), rest6)
                | _ => none
              | c :: rest5 =>
                if c = rbrace then
                  some (Json.obj [(String.mk keyChars, v)], rest5)
                else none
              | [] => none
          | _ => none
      | _ => none
    else if mode = 2 then
      match parseJ fuel 0 cs with
      | none => none
      | some (v, rest) =>
        match skipJsonWs rest with
        | ',' :: rest2 =>
          match parseJ fuel 2 rest2 with
          | some (Json.arr vs, rest3) => some (Json.arr (v :: vs), rest3)
          | _ => none
        | ']' :: rest2 => some (Json.arr [v], rest2)
        | _ => none
    else
      match skipJsonWs cs with
      | [] => none
      | c :: rest =>
        if c = lbrace then
          match skipJsonWs rest with
          | c2 :: rest2 =>
            if c2 = rbrace then some (Json.obj [], rest2)
            else parseJ fuel 1 (c2 :: rest2)
          | [] => none
        else if c = '[' then
          match skipJsonWs rest with
          | ']' :: rest2 => some (Json.arr [], rest2)
          | cs2 => parseJ fuel 2 cs2
        else if c = '"' then
          (parseJsonStringAux rest).map fun p => (Json.str (String.mk p.1), p.2)
        else if c = 't' then
          match rest with
          | 'r' :: 'u' :: 'e' :: r2 => some (Json.bool true, r2)
          | _ => none
        else if c = 'f' then
          match rest with
          | 'a' :: 'l' :: 's' :: 'e' :: r2 => some (Json.bool false, r2)
          | _ => none
        else if c = 'n' then
          match rest with
          | 'u' :: 'l' :: 'l' :: r2 => some (Json.null, r2)
          | _ => none
        else (parseNumber (c :: rest)).map fun p => (Json.num p.1, p.2)

/-- `json.loads`: parse one JSON document, requiring only whitespace after
it. -/
def json_loads (cs : List Char) : Option Json :=
  match parseJ (cs.length + 1) 0 cs with
  | some (v, rest) => if skipJsonWs rest = [] then some v else none
  | none => none

/-- Match a literal prefix, returning the remaining input. -/
def matchLit : List Char → List Char → Option (List Char)
  | [], cs => some cs
  | _ :: _, [] => none
  | l :: ls, c :: cs => if c = l then matchLit ls cs else none

/-- Split at the first triple-backtick fence, returning the text before it
and the text after it. -/
def splitAtFence : List Char → Option (List Char × List Char)
  | [] => none
  | c :: rest =>
    match matchLit "```".data (c :: rest) with
    | some after => some ([], after)
    | none => (splitAtFence rest).map fun p => (c :: p.1, p.2)

/-- The regex `` ```json\s*(.*?)\s*``` `` (dotall, non-greedy): at the first
position where a complete fenced block starts, capture its body with
surrounding whitespace stripped. -/
def findFencedJson : List Char → Option (List Char)
  | [] => none
  | c :: rest =>
    match matchLit "```json".data (c :: rest) with
    | some afterOpen =>
      match splitAtFence (skipPyWs afterOpen) with
      | some (body, _) => some (stripTrailingPyWs body)
      | none => findFencedJson rest
    | none => findFencedJson rest

/-- Drop input up to (and keeping) the first occurrence of `ch`. -/
def dropUntilChar (ch : Char) : List Char → Option (List Char)
  | [] => none
  | c :: rest => if c = ch then some (c :: rest) else dropUntilChar ch rest

/-- `text[text.find(lbrace) : text.rfind(rbrace) + 1]`, `None` when either
brace is missing (the slice may be empty when they are out of order). -/
def bracesExtract (cs : List Char) : Option (List Char) :=
  match dropUntilChar lbrace cs, dropUntilChar rbrace cs.reverse with
  | some fromBrace, some revFromR =>
    some ((cs.take revFromR.length).drop (cs.length - fromBrace.length))
  | _, _ => none

/-- The `"<name>"` literal at the head of each score-field regex. -/
def quotedName (name : String) : List Char :=
  '"' :: (name.data ++ ['"'])

def isScoreChar (c : Char) : Bool := c.isDigit || c = '.'

/-- Try the pattern `"<field>"\s*:\s*([\d.]+)` at the current position. -/
def tryScoreAt (fieldName : String) (cs : List Char) : Option (List Char) :=
  match matchLit (quotedName fieldName) cs with
  | none => none
  | some rest =>
    match skipPyWs rest with
    | ':' :: r2 =>
      match (skipPyWs r2).takeWhile isScoreChar with
      | [] => none
      | cap => some cap
    | _ => none

/-- `re.search` for a score-field pattern: first matching position wins. -/
def searchScore (fieldName : String) : List Char → Option (List Char)
  | [] => none
  | c :: rest =>
    match tryScoreAt fieldName (c :: rest) with
    | some cap => some cap
    | none => searchScore fieldName rest

/-- Does the non-greedy reasoning capture close here: a quote followed by
optional whitespace and `,` or the closing brace? -/
def reasoningClose : List Char → Bool
  | c :: rest =>
    if c = '"' then
      match skipPyWs rest with
      | c2 :: _ => c2 = ',' || c2 = rbrace
      | [] => false
    else false
  | [] => false

/-- The shortest capture of `"(.*?)"(?:\s*[,}])` (dotall). -/
def scanReasoningBody : List Char → Option (List Char)
  | [] => none
  | c :: rest =>
    if reasoningClose (c :: rest) then some []
    else (scanReasoningBody rest).map fun b => c :: b

/-- Try the reasoning pattern at the current position. -/
def tryReasoningAt (cs : List Char) : Option (List Char) :=
  match matchLit (quotedName "reasoning") cs with
  | none => none
  | some rest =>
    match skipPyWs rest with
    | ':' :: r2 =>
      match skipPyWs r2 with
      | '"' :: r3 => scanReasoningBody r3
      | _ => none
    | _ => none

def searchReasoning : List Char → Option (List Char)
  | [] => none
  | c :: rest =>
    match tryReasoningAt (c :: rest) with
    | some b => some b
    | none => searchReasoning rest

/-- The extracted six fields (`reasoning` kept as the JSON value Python
stores, usually a string). -/
structure JudgeFields where
  accuracy_score : ℚ
  completeness_score : ℚ
  insight_score : ℚ
  clarity_score : ℚ
  overall_score : ℚ
  reasoning : Json

/-- Python dict lookup for keys of a parsed JSON object: on duplicates the
last occurrence wins. -/
def jlookup (k : String) (kvs : List (String × Json)) : Option Json :=
  alookup k kvs.reverse

/-- Python `float(value)` for a JSON value: numbers directly, booleans as
0/1, numeric strings parsed; anything else raises (is `none`). -/
def jsonToFloat : Json → Option ℚ
  | Json.num q => some q
  | Json.bool b => some (if b then 1 else 0)
  | Json.str s => pyFloatOfChars s.data
  | _ => none

/-- Field validation and float coercion of `_parse_judge_response`: all six
required fields must be present, and the five score fields must coerce to
float (any coercion failure escapes to the generic handler, yielding
`None`). -/
def validateFields : Json → Option JudgeFields
  | Json.obj kvs => do
    let a0 ← jlookup "accuracy_score" kvs
    let c0 ← jlookup "completeness_score" kvs
    let i0 ← jlookup "insight_score" kvs
    let cl0 ← jlookup "clarity_score" kvs
    let o0 ← jlookup "overall_score" kvs
    let r0 ← jlookup "reasoning" kvs
    let a ← jsonToFloat a0
    let c ← jsonToFloat c0
    let i ← jsonToFloat i0
    let cl ← jsonToFloat cl0
    let o ← jsonToFloat o0
    pure ⟨a, c, i, cl, o, r0⟩
  | _ => none

/-- The regex-based last-resort extraction: the five numeric fields must all
match and parse as floats (a `float()` failure aborts the whole fallback);
the reasoning is extracted if possible, with a fixed fallback text. -/
def regexFallback (cs : List Char) : Option JudgeFields := do
  let a ← searchScore "accuracy_score" cs >>= fun cap => pyFloatOfChars cap
  let c ← searchScore "completeness_score" cs >>= fun cap => pyFloatOfChars cap
  let i ← searchScore "insight_score" cs >>= fun cap => pyFloatOfChars cap
  let cl ← searchScore "clarity_score" cs >>= fun cap => pyFloatOfChars cap
  let o ← searchScore "overall_score" cs >>= fun cap => pyFloatOfChars cap
  let reasoning :=
    match searchReasoning cs with
    | some b => String.mk b
    | none => "Failed to extract reasoning"
  pure ⟨a, c, i, cl, o, Json.str reasoning⟩

/-- Which stage of the staged fallback produced the result. -/
inductive ParseStage where
  | fenced
  | braces
  | regexExtract
deriving DecidableEq, Repr

/-- The outcome of `_parse_judge_response`: a parsed field record tagged
with the stage that produced it, or `None`. -/
inductive ParseOutcome where
  | parsed (stage : ParseStage) (fields : JudgeFields)
  | failed

/-- Run `json.loads` on the extracted candidate string: on success validate
(missing fields or coercion errors give `None` — no regex); on a JSON
decode error fall back to regex extraction over the whole response text. -/
def parseViaJson (cs jsonChars : List Char) (stage : ParseStage) : ParseOutcome :=
  match json_loads jsonChars with
  | some v =>
    match validateFields v with
    | some f => ParseOutcome.parsed stage f
    | none => ParseOutcome.failed
  | none =>
    match regexFallback cs with
    | some f => ParseOutcome.parsed ParseStage.regexExtract f
    | none => ParseOutcome.failed

/-- `ComicExplanationJudge._parse_judge_response`. -/
def parse_judge_response (text : String) : ParseOutcome :=
  match findFencedJson text.data with
  | some jsonChars => parseViaJson text.data jsonChars ParseStage.fenced
  | none =>
    match bracesExtract text.data with
    | none => ParseOutcome.failed
    | some jsonChars => parseViaJson text.data jsonChars ParseStage.braces

/-- The score record `judge.py` builds (`reasoning` as the stored JSON
value). -/
structure JudgeScore where
  overall_score : ℚ
  accuracy_score : ℚ
  completeness_score : ℚ
  insight_score : ℚ
  clarity_score : ℚ
  reasoning : Json
  timestamp : String
  judge_model : String

/-- `ComicExplanationJudge._create_error_score`. -/
def create_error_score (msg ts judgeModel : String) : JudgeScore :=
  ⟨0, 0, 0, 0, 0, Json.str ("Error: " ++ msg), ts, judgeModel⟩

/-- `ComicExplanationJudge._judge_with_text_parsing`, for a judge response
that arrived without a transport error: parse it, returning either the
parsed scores or the zero-valued error score. -/
def judge_with_text_parsing (responseText ts judgeModel : String) : JudgeScore :=
  match parse_judge_response responseText with
  | ParseOutcome.parsed _ f =>
    ⟨f.overall_score, f.accuracy_score, f.completeness_score, f.insight_score,
     f.clarity_score, f.reasoning, ts, judgeModel⟩
  | ParseOutcome.failed =>
    create_error_score "Failed to parse judge response" ts judgeModel

theorem parseViaJson_regex {cs js : List Char} {st : ParseStage} {f : JudgeFields}
    (hst : st ≠ ParseStage.regexExtract)
    (h : parseViaJson cs js st = ParseOutcome.parsed ParseStage.regexExtract f) :
    regexFallback cs = some f := by
  rw [parseViaJson] at h
  cases h1 : json_loads js with
  | some v =>
    rw [h1] at h
    dsimp only at h
    cases h2 : validateFields v with
    | some f2 =>
      rw [h2] at h
      injection h with h3 _
      exact absurd h3 hst
    | none =>
      rw [h2] at h
      exact ParseOutcome.noConfusion h
  | none =>
    rw [h1] at h
    dsimp only at h
    cases h2 : regexFallback cs with
    | some f2 =>
      rw [h2] at h
      injection h with _ h4
      rw [h4]
    | none =>
      rw [h2] at h
      exact ParseOutcome.noConfusion h

theorem regexFallback_fields {cs : List Char} {f : JudgeFields}
    (h : regexFallback cs = some f) :
    (searchScore "accuracy_score" cs).isSome ∧
    (searchScore "completeness_score" cs).isSome ∧
    (searchScore "insight_score" cs).isSome ∧
    (searchScore "clarity_score" cs).isSome ∧
    (searchScore "overall_score" cs).isSome := by
  rw [regexFallback] at h
  simp only [bind, Option.bind_eq_some] at h
  obtain ⟨a, ⟨capA, hA, _⟩, c, ⟨capC, hC, _⟩, i, ⟨capI, hI, _⟩, cl, ⟨capCl, hCl, _⟩,
    o, ⟨capO, hO, _⟩, _⟩ := h
  exact ⟨by rw [hA]; rfl, by rw [hC]; rfl, by rw [hI]; rfl,
    by rw [hCl]; rfl, by rw [hO]; rfl⟩

/-- A judge response that is plain text with an embedded JSON object and no
fence markers. -/
def judgePlainJson : String :=
  "Here is my evaluation.\n\x7b \"accuracy_score\": 8.0, \"completeness_score\": 7.5, \"insight_score\": 8.0, \"clarity_score\": 9.0, \"overall_score\": 8.0, \"reasoning\": \"solid coverage\" \x7d"

/-- A judge response whose brace-delimited substring is invalid JSON and
from which the regex fallback cannot extract the numeric fields. -/
def judgeUnparsable : String := "\x7b \"accuracy_score\": high \x7d"

/-- A judge response whose brace-delimited substring is near-valid JSON (a
trailing comma), recoverable by the regex fallback. -/
def judgeNearJson : String :=
  "broken \x7b \"accuracy_score\": 8.0, \"completeness_score\": 7.0, \"insight_score\": 6.0, \"clarity_score\": 9.0, \"overall_score\": 7.6, \"reasoning\": \"ok\", \x7d"

/-- Claim C7: the staged fallback of judge-response parsing.  For plain text
with an embedded fence-less JSON object, all six required fields are
recovered by the brace-delimited parse (the result is tagged
`ParseStage.braces` — the regex fallback is not involved); any result tagged
`ParseStage.regexExtract` comes from the regex extraction and exists only
when every score-field pattern matched (with `reasoning` always filled in);
and when no stage succeeds, the evaluator returns the zero-scored
`JudgeScore` whose reasoning is the explanatory error string. -/
theorem judge_parse_staged_fallback :
    (parse_judge_response judgePlainJson =
      ParseOutcome.parsed ParseStage.braces
        ⟨8, ratOf 15 2, 8, 9, 8, Json.str "solid coverage"⟩) ∧
    ratOf 15 2 = 15 / 2 ∧
    (∀ t f, parse_judge_response t = ParseOutcome.parsed ParseStage.regexExtract f →
      regexFallback t.data = some f ∧
      (searchScore "accuracy_score" t.data).isSome ∧
      (searchScore "completeness_score" t.data).isSome ∧
      (searchScore "insight_score" t.data).isSome ∧
      (searchScore "clarity_score" t.data).isSome ∧
      (searchScore "overall_score" t.data).isSome) ∧
    parse_judge_response judgeUnparsable = ParseOutcome.failed ∧
    (∀ ts jm, judge_with_text_parsing judgeUnparsable ts jm =
      create_error_score "Failed to parse judge response" ts jm) := by
  refine ⟨rfl, by rw [ratOf_eq_div]; norm_num, ?_, rfl, fun ts jm => rfl⟩
  intro t f h
  rw [parse_judge_response] at h
  cases h1 : findFencedJson t.data with
  | some js =>
    rw [h1] at h
    have hreg := parseViaJson_regex (by simp) h
    exact ⟨hreg, regexFallback_fields hreg⟩
  | none =>
    rw [h1] at h
    cases h2 : bracesExtract t.data with
    | none =>
      rw [h2] at h
      exact ParseOutcome.noConfusion h
    | some js =>
      rw [h2] at h
      have hreg := parseViaJson_regex (by simp) h
      exact ⟨hreg, regexFallback_fields hreg⟩

/-- Witness for C7's regex conjunct: near-valid JSON (trailing comma) is
recovered by the regex stage, with all five score patterns matching. -/
theorem judge_parse_staged_fallback_witness :
    parse_judge_response judgeNearJson =
      ParseOutcome.parsed ParseStage.regexExtract
        ⟨8, 7, 6, 9, ratOf 38 5, Json.str "ok"⟩ ∧
    regexFallback judgeNearJson.data =
      some ⟨8, 7, 6, 9, ratOf 38 5, Json.str "ok"⟩ ∧
    (searchScore "accuracy_score" judgeNearJson.data).isSome ∧
    (searchScore "completeness_score" judgeNearJson.data).isSome ∧
    (searchScore "insight_score" judgeNearJson.data).isSome ∧
    (searchScore "clarity_score" judgeNearJson.data).isSome ∧
    (searchScore "overall_score" judgeNearJson.data).isSome := by
  have hp : parse_judge_response judgeNearJson =
      ParseOutcome.parsed ParseStage.regexExtract
        ⟨8, 7, 6, 9, ratOf 38 5, Json.str "ok"⟩ := rfl
  have h := judge_parse_staged_fallback.2.2.1 judgeNearJson _ hp
  exact ⟨hp, h.1, h.2.1, h.2.2.1, h.2.2.2.1, h.2.2.2.2.1, h.2.2.2.2.2⟩

end PbfBench
